import Mathlib

/-!
# Configuration reader of trading-shell (package `config`)

A shallow embedding of `src/config/config_reader.go` and `src/config/config.go`.

Go strings are modelled as lists of characters (`Str`).  The identifiers the
reader works on are ASCII, so `strings.ToLower` and `strings.ToUpper` are
modelled by the ASCII case maps.  The parts of the Go standard library the
reader calls (`regexp`, `strings`, `strconv`, `time.ParseDuration`, `flag`,
`reflect`) are modelled next to the code that uses them.
-/

namespace TradingShell

/-- Go strings, modelled as the list of their characters. -/
abbrev Str := List Char

/-! ## Naming: `toArgName`, `envName`, `envNameWithPrefix` -/

/-- Anchored match of the expression `(.)([A-Z][a-z]+)` at the head of the
input: group 1, group 2 and the unmatched rest.  `.` matches any character but
a line feed; `+` is greedy. -/
def matchFirstCap : Str → Option (Str × Str × Str)
  | c :: u :: l :: rest =>
    if c != '\n' && u.isUpper && l.isLower then
      some ([c], u :: l :: rest.takeWhile Char.isLower, rest.dropWhile Char.isLower)
    else none
  | _ => none

/-- Anchored match of the expression `([a-z0-9])([A-Z]+)` at the head of the
input: group 1, group 2 and the unmatched rest. -/
def matchAllCap : Str → Option (Str × Str × Str)
  | c :: u :: rest =>
    if (c.isLower || c.isDigit) && u.isUpper then
      some ([c], u :: rest.takeWhile Char.isUpper, rest.dropWhile Char.isUpper)
    else none
  | _ => none

/-- The scanning loop of `Regexp.ReplaceAllString` with the template
`${1}-${2}`: at each position the leftmost match is replaced and the scan
resumes behind it; where nothing matches the character is copied.  The first
argument bounds the number of steps. -/
def replaceAllAux (m : Str → Option (Str × Str × Str)) : Nat → Str → Str
  | 0, s => s
  | _ + 1, [] => []
  | n + 1, c :: cs =>
    match m (c :: cs) with
    | some (g1, g2, rest) => g1 ++ '-' :: g2 ++ replaceAllAux m n rest
    | none => c :: replaceAllAux m n cs

/-- `re.ReplaceAllString(s, "${1}-${2}")`: every step consumes a character, so
the length of the input bounds the scan. -/
def ReplaceAllString (m : Str → Option (Str × Str × Str)) (s : Str) : Str :=
  replaceAllAux m s.length s

/-- `strings.ToLower` on ASCII text. -/
def ToLower (s : Str) : Str := s.map Char.toLower

/-- `strings.ToUpper` on ASCII text. -/
def ToUpper (s : Str) : Str := s.map Char.toUpper

/-- `strings.Replace(s, old, new, -1)` for one-character `old` and `new`. -/
def Replace (s : Str) (old new : Char) : Str :=
  s.map fun c => if c = old then new else c

/-- `toArgName` of `config_reader.go`. -/
def toArgName (str : Str) : Str :=
  let snake := ReplaceAllString matchFirstCap str
  let snake := ReplaceAllString matchAllCap snake
  ToLower snake

/-- `envName` of `config_reader.go`. -/
def envName (flagName : Str) : Str :=
  Replace (ToUpper flagName) '-' '_'

/-- Whether the character before the current position is a lower-case letter
or a digit. -/
def lowDig : Option Char → Bool
  | some p => p.isLower || p.isDigit
  | none => false

/-- Whether the input starts with a lower-case letter. -/
def nextLower : Str → Bool
  | c :: _ => c.isLower
  | [] => false

/-- Whether the input starts with `[A-Z][a-z]`. -/
def firstCapAhead : Str → Bool
  | c :: cs => c.isUpper && nextLower cs
  | [] => false

/-- The effect of the second replacement, read from left to right: a dash goes
between a lower-case letter or digit and an upper-case letter right behind it.
`prev` is the character before the input. -/
def dashAllCap (prev : Option Char) : Str → Str
  | [] => []
  | c :: cs => (if lowDig prev && c.isUpper then ['-'] else []) ++ c :: dashAllCap (some c) cs

/-- The form `kebabSpec` describes, read from left to right.  `prev` is the
character before the input. -/
def kebabFrom (prev : Option Char) : Str → Str
  | [] => []
  | c :: cs =>
    (if prev.isSome && c.isUpper && (nextLower cs || lowDig prev) then ['-'] else [])
      ++ c.toLower :: kebabFrom (some c) cs

/-- The rule of the naming convention, in the words of the specification: a
boundary stands before position `i` exactly when `i > 0`, `s[i]` is an
upper-case letter and either `s[i+1]` is a lower-case letter or `s[i-1]` is a
lower-case letter or a digit.  Positions outside the string hold a blank. -/
def boundaryBefore (s : Str) (i : Nat) : Bool :=
  decide (0 < i) && (s.getD i ' ').isUpper &&
    ((s.getD (i + 1) ' ').isLower || (s.getD (i - 1) ' ').isLower || (s.getD (i - 1) ' ').isDigit)

/-- The kebab-case form the specification describes: the string lower-cased,
with one `-` before every boundary position. -/
def kebabSpec (s : Str) : Str :=
  (List.range s.length).flatMap fun i =>
    (if boundaryBefore s i then ['-'] else []) ++ [(s.getD i ' ').toLower]

/-! ## `strconv` -/

/-- The two kinds of `strconv.NumError`: `ErrSyntax` and `ErrRange`. -/
inductive NumError
  | errSyntax
  | errRange
  deriving DecidableEq, Repr

/-- `strconv.IntSize` on the 64-bit platforms the program is built for. -/
def IntSize : Nat := 64

/-- `strconv.ParseBool`: the accepted tokens are 1, t, T, TRUE, true, True and
0, f, F, FALSE, false, False; anything else is a syntax error. -/
def ParseBool (s : Str) : Option Bool :=
  if s = "1".toList ∨ s = "t".toList ∨ s = "T".toList ∨ s = "TRUE".toList
      ∨ s = "true".toList ∨ s = "True".toList then some true
  else if s = "0".toList ∨ s = "f".toList ∨ s = "F".toList ∨ s = "FALSE".toList
      ∨ s = "false".toList ∨ s = "False".toList then some false
  else none

/-- The byte `c | ('x' - 'X')` of `strconv`: ASCII letters are lower-cased. -/
def lower (c : Char) : Nat := c.toNat ||| 32

/-- The value of a digit of `ParseUint`'s loop: `0`-`9`, then the letters. -/
def digitVal (c : Char) : Option Nat :=
  if c.isDigit then some (c.toNat - 48)
  else if 97 ≤ lower c ∧ lower c ≤ 122 then some (lower c - 97 + 10)
  else none

/-- The digit loop of `strconv.ParseUint`: the number read so far and whether
an underscore was skipped; on failure the value `ParseUint` returns with the
error. -/
def parseUintLoop (base : Nat) (base0 : Bool) (cutoff maxVal : Nat) :
    Str → Nat → Bool → Except (Nat × NumError) (Nat × Bool)
  | [], n, underscores => .ok (n, underscores)
  | c :: cs, n, underscores =>
    if c = '_' ∧ base0 = true then parseUintLoop base base0 cutoff maxVal cs n true
    else
      match digitVal c with
      | none => .error (0, .errSyntax)
      | some d =>
        if d ≥ base then .error (0, .errSyntax)
        else if n ≥ cutoff then .error (maxVal, .errRange)
        else
          let n0 := n * base
          let n1 := (n0 + d) % 2 ^ 64
          if n1 < n0 ∨ n1 > maxVal then .error (maxVal, .errRange)
          else parseUintLoop base base0 cutoff maxVal cs n1 underscores

/-- The loop of `strconv.underscoreOK` from position `i` on; `saw` is the
class of the last character: `^` start, `0` digit or base mark, `_`
underscore, `!` anything else. -/
def underscoreLoop (hex : Bool) : Str → Char → Bool
  | [], saw => saw != '_'
  | c :: cs, saw =>
    if c.isDigit || (hex && decide (97 ≤ lower c ∧ lower c ≤ 102)) then underscoreLoop hex cs '0'
    else if c = '_' then
      if saw != '0' then false else underscoreLoop hex cs '_'
    else if saw = '_' then false
    else underscoreLoop hex cs '!'

/-- `strconv.underscoreOK`: underscores stand only between digits or between
a base mark and a digit. -/
def underscoreOK (s : Str) : Bool :=
  let s := match s with
    | c :: cs => if c = '-' ∨ c = '+' then cs else c :: cs
    | [] => []
  match s with
  | c0 :: c1 :: rest =>
    if c0 = '0' ∧ (lower c1 = 98 ∨ lower c1 = 111 ∨ lower c1 = 120) then
      underscoreLoop (lower c1 == 120) rest '0'
    else underscoreLoop false s '^'
  | _ => underscoreLoop false s '^'

/-- `strconv.ParseUint(s, base, bitSize)` for `base` 0 or 2..36 and
`bitSize` 1..64: the value returned and the error, if any. -/
def ParseUint (s : Str) (base : Nat) (bitSize : Nat) : Nat × Option NumError :=
  match s with
  | [] => (0, some .errSyntax)
  | c0 :: tl =>
    let base0 := base == 0
    let (b, digits) :=
      if base = 0 then
        if c0 = '0' then
          match tl with
          | c1 :: c2 :: rest =>
            if lower c1 = 98 then (2, c2 :: rest)
            else if lower c1 = 111 then (8, c2 :: rest)
            else if lower c1 = 120 then (16, c2 :: rest)
            else (8, tl)
          | _ => (8, tl)
        else (10, s)
      else (base, s)
    let cutoff := (2 ^ 64 - 1) / b + 1
    let maxVal := 2 ^ bitSize - 1
    match parseUintLoop b base0 cutoff maxVal digits 0 false with
    | .error (v, e) => (v, some e)
    | .ok (n, underscores) =>
      if underscores = true ∧ underscoreOK s = false then (0, some .errSyntax) else (n, none)

/-- `strconv.ParseInt(s, base, bitSize)` for `bitSize` 1..64. -/
def ParseInt (s : Str) (base : Nat) (bitSize : Nat) : Int × Option NumError :=
  match s with
  | [] => (0, some .errSyntax)
  | c0 :: tl =>
    let neg := decide (c0 = '-')
    let digits := if c0 = '+' ∨ c0 = '-' then tl else s
    match ParseUint digits base bitSize with
    | (_, some .errSyntax) => (0, some .errSyntax)
    | (un, _) =>
      let cutoff := 2 ^ (bitSize - 1)
      if neg = false ∧ un ≥ cutoff then ((cutoff : Int) - 1, some .errRange)
      else if neg = true ∧ un > cutoff then (-(cutoff : Int), some .errRange)
      else (if neg then -(un : Int) else (un : Int), none)

/-! ## `time.ParseDuration` -/

/-- `time.leadingInt`: the leading digits as a number and the rest; `none` on
overflow past `2^63`. -/
def leadingInt : Str → Nat → Option (Nat × Str)
  | [], x => some (x, [])
  | c :: cs, x =>
    if !c.isDigit then some (x, c :: cs)
    else if x > 2 ^ 63 / 10 then none
    else
      let x1 := x * 10 + (c.toNat - 48)
      if x1 > 2 ^ 63 then none else leadingInt cs x1

/-- `time.leadingFraction`: the leading digits as a number, how many of them
were taken into it (the scale is ten to that power) and the rest.  Digits past
the overflow point are skipped. -/
def leadingFraction : Str → Nat → Nat → Bool → Nat × Nat × Str
  | [], x, k, _ => (x, k, [])
  | c :: cs, x, k, overflow =>
    if !c.isDigit then (x, k, c :: cs)
    else if overflow then leadingFraction cs x k true
    else if x > (2 ^ 63 - 1) / 10 then leadingFraction cs x k true
    else
      let y := x * 10 + (c.toNat - 48)
      if y > 2 ^ 63 then leadingFraction cs x k true else leadingFraction cs y (k + 1) false

/-- `time.unitMap`: the units of a duration literal in nanoseconds. -/
def unitMap (u : Str) : Option Nat :=
  if u = "ns".toList then some 1
  else if u = "us".toList then some 1000
  else if u = "µs".toList then some 1000
  else if u = "μs".toList then some 1000
  else if u = "ms".toList then some 1000000
  else if u = "s".toList then some 1000000000
  else if u = "m".toList then some 60000000000
  else if u = "h".toList then some 3600000000000
  else none

/-- A character that ends the unit of a duration literal: `.` or a digit. -/
def endsUnit (c : Char) : Bool := c == '.' || c.isDigit

/-- The step `(\.[0-9]*)?` of `time.ParseDuration`: the digits behind a
period as a number, how many were taken, the rest of the text, and whether a
digit was consumed. -/
def fractionPart (s1 : Str) : Nat × Nat × Str × Bool :=
  match s1 with
  | '.' :: s1t =>
    let (f, k, s2) := leadingFraction s1t 0 0 false
    (f, k, s2, decide (s1t.length ≠ s2.length))
  | _ => (0, 0, s1, false)

/-- One round of the loop of `time.ParseDuration`, reading one group
`[0-9]*(\.[0-9]*)?[a-z]+`: the rest of the text and the new sum in
nanoseconds, `none` on any error.  `fracNanos f k unit` stands for the
floating-point term `uint64(float64(f) * (float64(unit) / scale))` with
`scale` ten to the power `k`; the model leaves that rounding to its caller. -/
def parseDurationGroup (fracNanos : Nat → Nat → Nat → Nat) : Str → Nat → Option (Str × Nat)
  | [], _ => none
  | c :: cs, d =>
    if !(c == '.' || c.isDigit) then none
    else
      match leadingInt (c :: cs) 0 with
      | none => none
      | some (v, s1) =>
        let pre := decide ((c :: cs).length ≠ s1.length)
        let (f, k, s2, post) := fractionPart s1
        if !pre && !post then none
        else
          let u := s2.takeWhile fun x => !endsUnit x
          let s3 := s2.dropWhile fun x => !endsUnit x
          if u = [] then none
          else
            match unitMap u with
            | none => none
            | some unit =>
              if v > 2 ^ 63 / unit then none
              else
                let v1 := v * unit
                let withFraction : Option Nat :=
                  if f > 0 then
                    let v2 := (v1 + fracNanos f k unit) % 2 ^ 64
                    if v2 > 2 ^ 63 then none else some v2
                  else some v1
                match withFraction with
                | none => none
                | some v2 =>
                  let d1 := (d + v2) % 2 ^ 64
                  if d1 > 2 ^ 63 then none else some (s3, d1)

/-- The loop `for s != ""` of `time.ParseDuration`: the sum in nanoseconds,
`none` on any error.  Every round takes at least one character off the text,
so the bound in the first argument is never hit when it starts at the length
of the text (`parseDurationLoop_fuel`). -/
def parseDurationLoop (fracNanos : Nat → Nat → Nat → Nat) : Nat → Str → Nat → Option Nat
  | _, [], d => some d
  | 0, _ :: _, _ => none
  | fuel + 1, c :: cs, d =>
    match parseDurationGroup fracNanos (c :: cs) d with
    | none => none
    | some (s3, d1) => parseDurationLoop fracNanos fuel s3 d1

/-- `time.ParseDuration`: the duration in nanoseconds, `none` when the literal
is malformed or out of range (the Go function then returns 0 and an error). -/
def ParseDuration (fracNanos : Nat → Nat → Nat → Nat) (s : Str) : Option Int :=
  let neg := match s with
    | c :: _ => decide (c = '-')
    | [] => false
  let s1 := match s with
    | c :: cs => if c = '-' ∨ c = '+' then cs else c :: cs
    | [] => []
  if s1 = "0".toList then some 0
  else if s1 = [] then none
  else
    match parseDurationLoop fracNanos s1.length s1 0 with
    | none => none
    | some d =>
      if neg then some (-(d : Int))
      else if d > 2 ^ 63 - 1 then none
      else some (d : Int)

/-! ## `reflect`: types, values and settings instances -/

/-- The values of `reflect.Kind` the reader switches on; `Other` stands for
every kind named in neither switch (floats, narrow signed integers, structs
and so on). -/
inductive Kind
  | String | Bool | Int | Int64 | Uint | Uint8 | Uint16 | Uint32 | Uint64 | Other
  deriving DecidableEq, Repr

/-- The Go type of a settings field: the predeclared types of the kinds above,
`time.Duration`, `named k` for any other defined type of kind `k`
(`type Level string` is `named .String`), and `other` for an unnamed type of
any other kind.  The reader compares types with `time.Duration` and asserts
pointers to the predeclared types, so a defined type is told apart from the
predeclared type of its kind. -/
inductive GoType
  | string | bool | int | int64 | duration | uint | uint8 | uint16 | uint32 | uint64 | other
  | named (k : Kind)
  deriving DecidableEq, Repr

/-- `reflect.Type.Kind`; `time.Duration` is declared as `int64`. -/
def GoType.Kind : GoType → Kind
  | .string => .String
  | .bool => .Bool
  | .int => .Int
  | .int64 => .Int64
  | .duration => .Int64
  | .uint => .Uint
  | .uint8 => .Uint8
  | .uint16 => .Uint16
  | .uint32 => .Uint32
  | .uint64 => .Uint64
  | .other => .Other
  | .named k => k

/-- The value a field holds: text, a boolean, a signed number (also a
duration, in nanoseconds), an unsigned number, or a value of another kind
(identified by a number, 0 for its zero value). -/
inductive Value
  | str (s : Str)
  | bool (b : Bool)
  | int (i : Int)
  | uint (n : Nat)
  | other (v : Nat)
  deriving DecidableEq, Repr

/-- The zero value of a type, as `reflect.New` allocates it. -/
def zeroValue : GoType → Value
  | .string => .str []
  | .bool => .bool false
  | .int => .int 0
  | .int64 => .int 0
  | .duration => .int 0
  | .uint => .uint 0
  | .uint8 => .uint 0
  | .uint16 => .uint 0
  | .uint32 => .uint 0
  | .uint64 => .uint 0
  | .other => .other 0
  | .named .String => .str []
  | .named .Bool => .bool false
  | .named .Int => .int 0
  | .named .Int64 => .int 0
  | .named .Uint => .uint 0
  | .named .Uint8 => .uint 0
  | .named .Uint16 => .uint 0
  | .named .Uint32 => .uint 0
  | .named .Uint64 => .uint 0
  | .named .Other => .other 0

/-- `reflect.StructField`, with the two tags the reader looks up:
`configTag` is `field.Tag.Lookup("config")`, `descTag` is
`field.Tag.Lookup("desc")`. -/
structure StructField where
  Name : Str
  Typ : GoType
  configTag : Option Str
  descTag : Option Str
  deriving DecidableEq, Repr

/-- `ConfigReader` of `config_reader.go`; `ConfigT` is the settings structure,
given by its fields in declaration order. -/
structure ConfigReader where
  ConfigT : List StructField
  EnvPrefix : Str

/-- A settings instance (a value of the structure `ConfigT`): the fields in
declaration order, each with its value. -/
abbrev Instance := List (Str × Value)

/-- `reflect.Value.FieldByName`; `none` is the zero `reflect.Value` returned
for a name the structure does not have. -/
def FieldByName : Instance → Str → Option Value
  | [], _ => none
  | (n, x) :: rest, name => if n = name then some x else FieldByName rest name

/-- The write into the memory of the field `name`: what a `Set` of `reflect`
does once its checks have passed, and what a `flag.Value` does through the
pointer it holds.  It checks nothing itself. -/
def storeField : Instance → Str → Value → Instance
  | [], _, _ => []
  | (n, y) :: rest, name, x => (n, if n = name then x else y) :: storeField rest name x

/-- Whether a field name is exported: it begins with an upper-case letter.
The letters are those of ASCII, `A` to `Z`; for a name that begins with a
letter outside ASCII Go consults `unicode.IsUpper`, which is not modelled. -/
def IsExported (name : Str) : Bool :=
  match name with
  | c :: _ => c.isUpper
  | [] => false

/-- What a panic carries. -/
inductive PanicValue
  | unsupportedKind (k : Kind)
  | unexportedField (name : Str)
  | parseError (literal : Str)
  | typeAssertion
  | flagRedefined (name : Str)
  | flagName (name : Str)
  | invalidValue
  | flagError
  deriving DecidableEq, Repr

/-- How a call ends: it returns, it panics, or it ends the process
(`os.Exit`). -/
inductive Outcome (α : Type)
  | ret (a : α)
  | panic (p : PanicValue)
  | exit (code : Nat)
  deriving DecidableEq, Repr

/-- Sequencing: a panic or an exit ends everything after it. -/
def Outcome.bind {α β : Type} : Outcome α → (α → Outcome β) → Outcome β
  | .ret a, f => f a
  | .panic p, _ => .panic p
  | .exit c, _ => .exit c

/-- `v.FieldByName(name).Set(x)` and its typed variants `SetString`,
`SetBool`, `SetInt`, `SetUint`: `mustBeAssignable` panics for a value obtained
using an unexported field; for an exported field the value is written. -/
def setField (c : Instance) (name : Str) (x : Value) : Outcome Instance :=
  if IsExported name then .ret (storeField c name x)
  else .panic (.unexportedField name)

/-- `f.Addr().Interface().(*T)` for the field `field` and the type `t`:
`Interface` panics for a value obtained using an unexported field, and the
type assertion panics unless the type of the field is `t` itself. -/
def addrInterface (field : StructField) (t : GoType) : Outcome Unit :=
  if IsExported field.Name then
    if field.Typ = t then .ret () else .panic .typeAssertion
  else .panic (.unexportedField field.Name)

/-- `ConfigReader.newConfig`: `reflect.New(reader.ConfigT)`. -/
def newConfig (reader : ConfigReader) : Instance :=
  reader.ConfigT.map fun field => (field.Name, zeroValue field.Typ)

/-! ## `iterateFields` -/

/-- The pieces of `strings.Split(s, ",")` when `cur` (reversed) has been read
of the current piece. -/
def splitAux : Str → Str → List Str
  | [], cur => [cur.reverse]
  | c :: cs, cur => if c = ',' then cur.reverse :: splitAux cs [] else splitAux cs (c :: cur)

/-- `strings.Split(s, ",")`. -/
def Split (s : Str) : List Str := splitAux s []

/-- The default literal, the description and the secret flag `iterateFields`
hands to its body for a field. -/
def fieldMeta (field : StructField) : Str × Str × Bool :=
  let (defaultValue, secret) :=
    match field.configTag with
    | some tag =>
      let values := Split tag
      (if values.length > 0 then values.getD 0 [] else [],
        if values.length > 1 then decide (values.getD 1 [] = "secret".toList) else false)
    | none => ([], false)
  let description :=
    match field.descTag with
    | some tag => tag
    | none => []
  (defaultValue, description, secret)

/-- `iterateFields`: the body is run for the fields in declaration order on
the state `s` it works on; a panic of the body ends the loop. -/
def iterateFields {σ : Type} (body : StructField → Str → Str → Bool → σ → Outcome σ) :
    List StructField → σ → Outcome σ
  | [], s => .ret s
  | field :: rest, s =>
    let (defaultValue, description, secret) := fieldMeta field
    (body field defaultValue description secret s).bind fun s1 => iterateFields body rest s1

/-! ## `WithoutSecrets`, `defaultValue` -/

/-- The body of the loop of `ConfigReader.WithoutSecrets`.  `fDst.Set(fSrc)`
panics for an unexported field, and on the zero `reflect.Value` that
`FieldByName` returns for a field the source does not have. -/
def withoutSecretsBody (src : Instance) (field : StructField) (_defaultValue _desc : Str)
    (secret : Bool) (dst : Instance) : Outcome Instance :=
  if secret then .ret dst
  else
    match FieldByName src field.Name with
    | some fSrc => setField dst field.Name fSrc
    | none =>
      if IsExported field.Name then .panic .invalidValue
      else .panic (.unexportedField field.Name)

/-- `ConfigReader.WithoutSecrets`. -/
def WithoutSecrets (reader : ConfigReader) (config : Instance) : Outcome Instance :=
  iterateFields (withoutSecretsBody config) reader.ConfigT (newConfig reader)

/-- The body of the loop of `ConfigReader.defaultValue`.  A literal is parsed
before the field is set, so a malformed literal panics before `SetInt` or
`SetUint` can. -/
def defaultValueBody (fracNanos : Nat → Nat → Nat → Nat) (field : StructField)
    (defaultValue _desc : Str) (_secret : Bool) (value : Instance) : Outcome Instance :=
  if defaultValue = [] then .ret value
  else
    match field.Typ.Kind with
    | .String => setField value field.Name (.str defaultValue)
    | .Bool => setField value field.Name (.bool (decide (defaultValue = "true".toList)))
    | .Int64 =>
      if field.Typ = .duration then
        match ParseDuration fracNanos defaultValue with
        | none => .panic (.parseError defaultValue)
        | some d => setField value field.Name (.int d)
      else
        match ParseInt defaultValue 10 64 with
        | (_, some _) => .panic (.parseError defaultValue)
        | (i, none) => setField value field.Name (.int i)
    | .Int =>
      match ParseInt defaultValue 10 64 with
      | (_, some _) => .panic (.parseError defaultValue)
      | (i, none) => setField value field.Name (.int i)
    | .Uint64 =>
      match ParseUint defaultValue 10 64 with
      | (_, some _) => .panic (.parseError defaultValue)
      | (i, none) => setField value field.Name (.uint i)
    | k => .panic (.unsupportedKind k)

/-- `ConfigReader.defaultValue`. -/
def defaultValue (fracNanos : Nat → Nat → Nat → Nat) (reader : ConfigReader) : Outcome Instance :=
  iterateFields (defaultValueBody fracNanos) reader.ConfigT (newConfig reader)

/-- `ConfigReader.DefaultValue`: `reader.defaultValue().Interface()`. -/
def DefaultValue (fracNanos : Nat → Nat → Nat → Nat) (reader : ConfigReader) : Outcome Instance :=
  defaultValue fracNanos reader

/-! ## `flag` -/

/-- `flag.ErrorHandling`. -/
inductive ErrorHandling
  | ContinueOnError | ExitOnError | PanicOnError
  deriving DecidableEq, Repr

/-- The implementations of `flag.Value` the reader registers. -/
inductive FlagValue
  | stringValue | boolValue | intValue | int64Value | uint64Value | durationValue
  deriving DecidableEq, Repr

/-- `flag.Flag`: name, usage text, and the value, which points into the
settings instance at the field `cell`.  (`DefValue`, the default as text for
the usage message, is left out.) -/
structure Flag where
  Name : Str
  Usage : Str
  Value : FlagValue
  cell : Str
  deriving DecidableEq, Repr

/-- The errors of `FlagSet.Parse`. -/
inductive FlagError
  | badSyntax (arg : Str)
  | help
  | notDefined (name : Str)
  | invalidBoolean (value name : Str)
  | needsArgument (name : Str)
  | invalidValue (value name : Str)
  deriving DecidableEq, Repr

/-- `flag.FlagSet`: the error handling it was created with and the flags
defined so far (`formal`), in the order of their definition. -/
structure FlagSet where
  errorHandling : ErrorHandling
  formal : List Flag

/-- `flag.NewFlagSet(name, errorHandling)`: a flag set without flags.
`flag.CommandLine` is `NewFlagSet .ExitOnError`. -/
def NewFlagSet (errorHandling : ErrorHandling) : FlagSet :=
  { errorHandling := errorHandling, formal := [] }

/-- `f.formal[name]`. -/
def FlagSet.lookup (f : FlagSet) (name : Str) : Option Flag :=
  f.formal.find? fun fl => decide (fl.Name = name)

/-- What `flag.Value.Set` of the six value types stores for a text, and
whether it returns an error.  As in Go a value is stored also when the text
does not parse: the value the parser returns next to its error. -/
def FlagValue.parse (fracNanos : Nat → Nat → Nat → Nat) (v : FlagValue) (s : Str) :
    Value × Bool :=
  match v with
  | .stringValue => (.str s, false)
  | .boolValue =>
    match ParseBool s with
    | some b => (.bool b, false)
    | none => (.bool false, true)
  | .intValue =>
    let (i, err) := ParseInt s 0 IntSize
    (.int i, err.isSome)
  | .int64Value =>
    let (i, err) := ParseInt s 0 64
    (.int i, err.isSome)
  | .uint64Value =>
    let (i, err) := ParseUint s 0 64
    (.uint i, err.isSome)
  | .durationValue =>
    match ParseDuration fracNanos s with
    | some d => (.int d, false)
    | none => (.int 0, true)

/-- `flag.Value.Set`: the instance with the flag's cell overwritten, and
whether an error is returned. -/
def Flag.Set (fracNanos : Nat → Nat → Nat → Nat) (fl : Flag) (s : Str) (config : Instance) :
    Instance × Bool :=
  let (x, err) := fl.Value.parse fracNanos s
  (storeField config fl.cell x, err)

/-- `FlagSet.Var`: panics on a name that begins with `-` or contains `=` and
on a name that is already defined. -/
def FlagSet.Var (f : FlagSet) (fl : Flag) : Outcome FlagSet :=
  if fl.Name.head? = some '-' then .panic (.flagName fl.Name)
  else if '=' ∈ fl.Name then .panic (.flagName fl.Name)
  else if (f.lookup fl.Name).isSome then .panic (.flagRedefined fl.Name)
  else .ret { f with formal := f.formal ++ [fl] }

/-- Byte-wise comparison of strings, `a <= b`. -/
def strLE : Str → Str → Bool
  | [], _ => true
  | _ :: _, [] => false
  | a :: as, b :: bs => if a < b then true else if b < a then false else strLE as bs

/-- `flag.sortFlags`: the flags in lexicographical order of their names. -/
def sortFlags (formal : List Flag) : List Flag :=
  formal.insertionSort fun a b => strLE a.Name b.Name = true

/-- `FlagSet.VisitAll`: `fn` is run for every flag, in lexicographical order,
on the state `s` it works on. -/
def FlagSet.VisitAll {σ : Type} (f : FlagSet) (fn : Flag → σ → σ) (s : σ) : σ :=
  (sortFlags f.formal).foldl (fun s fl => fn fl s) s

/-- The loop of `parseOne` that looks for `=` from the second character of
the name on: the name, and the value when there is one. -/
def cutValue : Str → Str × Option Str
  | [] => ([], none)
  | c :: cs =>
    match cs.dropWhile fun x => x != '=' with
    | [] => (c :: cs, none)
    | _ :: value => (c :: cs.takeWhile fun x => x != '=', some value)

/-- `FlagSet.parseOne`: whether a flag was seen, the error, the arguments
left, and the settings instance. -/
def FlagSet.parseOne (fracNanos : Nat → Nat → Nat → Nat) (f : FlagSet) (args : List Str)
    (config : Instance) : Bool × Option FlagError × List Str × Instance :=
  match args with
  | [] => (false, none, [], config)
  | s :: rest =>
    match s with
    | '-' :: c1 :: t =>
      if c1 = '-' ∧ t = [] then (false, none, rest, config)
      else
        let name := if c1 = '-' then t else c1 :: t
        if name = [] ∨ name.head? = some '-' ∨ name.head? = some '=' then
          (false, some (.badSyntax s), args, config)
        else
          let (name, value) := cutValue name
          match f.lookup name with
          | none =>
            if name = "help".toList ∨ name = "h".toList then (false, some .help, rest, config)
            else (false, some (.notDefined name), rest, config)
          | some fl =>
            if fl.Value = .boolValue then
              match value with
              | some v =>
                match fl.Set fracNanos v config with
                | (config1, true) => (false, some (.invalidBoolean v name), rest, config1)
                | (config1, false) => (true, none, rest, config1)
              | none =>
                match fl.Set fracNanos "true".toList config with
                | (config1, true) => (false, some (.invalidBoolean "true".toList name), rest, config1)
                | (config1, false) => (true, none, rest, config1)
            else
              match value, rest with
              | some v, _ =>
                match fl.Set fracNanos v config with
                | (config1, true) => (false, some (.invalidValue v name), rest, config1)
                | (config1, false) => (true, none, rest, config1)
              | none, v :: rest1 =>
                match fl.Set fracNanos v config with
                | (config1, true) => (false, some (.invalidValue v name), rest1, config1)
                | (config1, false) => (true, none, rest1, config1)
              | none, [] => (false, some (.needsArgument name), rest, config)
    | _ => (false, none, args, config)

/-- The loop of `FlagSet.Parse`: `parseOne` is repeated while it sees a flag.
Every flag seen takes an argument off the list, so the bound is never hit when
it starts above the length of the list. -/
def FlagSet.parseLoop (fracNanos : Nat → Nat → Nat → Nat) (f : FlagSet) :
    Nat → List Str → Instance → Option FlagError × Instance
  | 0, _, config => (none, config)
  | fuel + 1, args, config =>
    match f.parseOne fracNanos args config with
    | (true, _, args1, config1) => f.parseLoop fracNanos fuel args1 config1
    | (false, err, _, config1) => (err, config1)

/-- `FlagSet.Parse`: the error it returns and the settings instance; on an
error a flag set with `ExitOnError` ends the process (status 0 for the help
request, 2 otherwise) and one with `PanicOnError` panics. -/
def FlagSet.Parse (fracNanos : Nat → Nat → Nat → Nat) (f : FlagSet) (arguments : List Str)
    (config : Instance) : Outcome (Option FlagError × Instance) :=
  match f.parseLoop fracNanos (arguments.length + 1) arguments config with
  | (none, config1) => .ret (none, config1)
  | (some err, config1) =>
    match f.errorHandling with
    | .ContinueOnError => .ret (some err, config1)
    | .ExitOnError => .exit (if err = .help then 0 else 2)
    | .PanicOnError => .panic .flagError

/-! ## `configureFlagSet`, `readConfig`, `Read` -/

/-- The body of the loop of `configureFlagSet`.  The pointer
`f.Addr().Interface().(*T)` is evaluated before the flag is registered: it
panics for an unexported field, and for a field whose type is not `T` itself,
such as a defined type of kind `String` at `.(*string)` or a field of kind
`Uint`, `Uint8`, `Uint16` or `Uint32` at `.(*uint64)`. -/
def configureFlagSetBody (field : StructField) (_defaultValue desc : Str) (_secret : Bool)
    (flags : FlagSet) : Outcome FlagSet :=
  let argName := toArgName field.Name
  match field.Typ.Kind with
  | .String =>
    (addrInterface field .string).bind fun _ =>
      flags.Var ⟨argName, desc, .stringValue, field.Name⟩
  | .Bool =>
    (addrInterface field .bool).bind fun _ =>
      flags.Var ⟨argName, desc, .boolValue, field.Name⟩
  | .Int64 =>
    if field.Typ = .duration then
      (addrInterface field .duration).bind fun _ =>
        flags.Var ⟨argName, desc, .durationValue, field.Name⟩
    else
      (addrInterface field .int64).bind fun _ =>
        flags.Var ⟨argName, desc, .int64Value, field.Name⟩
  | .Int =>
    (addrInterface field .int).bind fun _ =>
      flags.Var ⟨argName, desc, .intValue, field.Name⟩
  | .Uint | .Uint8 | .Uint16 | .Uint32 | .Uint64 =>
    (addrInterface field .uint64).bind fun _ =>
      flags.Var ⟨argName, desc, .uint64Value, field.Name⟩
  | k => .panic (.unsupportedKind k)

/-- `configureFlagSet`: one flag per field; each flag starts at the value its
field holds, so the instance is unchanged. -/
def configureFlagSet (reader : ConfigReader) (flags : FlagSet) : Outcome FlagSet :=
  iterateFields configureFlagSetBody reader.ConfigT flags

/-- `ConfigReader.envNameWithPrefix`. -/
def envNameWithPrefix (reader : ConfigReader) (flagName : Str) : Str :=
  reader.EnvPrefix ++ envName flagName

/-- The function `readConfig` hands to `VisitAll`: the value of the prefixed
environment name, else of the unprefixed one, is set; the error `Set` returns
is dropped.  `env` is `os.LookupEnv`. -/
def applyEnv (fracNanos : Nat → Nat → Nat → Nat) (reader : ConfigReader)
    (env : Str → Option Str) (fl : Flag) (config : Instance) : Instance :=
  match env (envNameWithPrefix reader fl.Name) with
  | some val => (fl.Set fracNanos val config).1
  | none =>
    match env (envName fl.Name) with
    | some val => (fl.Set fracNanos val config).1
    | none => config

/-- `ConfigReader.readConfig`: the `reflect.Value` returned (`none` is the
zero `reflect.Value{}`) and the error. -/
def readConfig (fracNanos : Nat → Nat → Nat → Nat) (reader : ConfigReader) (f : FlagSet)
    (env : Str → Option Str) (args : List Str) : Outcome (Option Instance × Option FlagError) :=
  (defaultValue fracNanos reader).bind fun config =>
  (configureFlagSet reader f).bind fun f1 =>
  let config1 := f1.VisitAll (applyEnv fracNanos reader env) config
  (f1.Parse fracNanos args config1).bind fun (err, config2) =>
  match err with
  | some e => .ret (none, some e)
  | none => .ret (some config2, none)

/-- `reflect.Value.Interface`: panics on the zero `reflect.Value`. -/
def Interface : Option Instance → Outcome Instance
  | some c => .ret c
  | none => .panic .invalidValue

/-- `ConfigReader.Read`. -/
def Read (fracNanos : Nat → Nat → Nat → Nat) (reader : ConfigReader) (f : FlagSet)
    (env : Str → Option Str) (args : List Str) : Outcome (Instance × Option FlagError) :=
  (readConfig fracNanos reader f env args).bind fun (c, err) =>
  (Interface c).bind fun i => .ret (i, err)

/-! ## `config.go` -/

/-- The structure `Config` of `config.go`. -/
def Config : List StructField :=
  [ ⟨"Host".toList, .string, some "localhost".toList, some "The host to listen on".toList⟩,
    ⟨"Port".toList, .string, some "8080".toList, some "The port to listen on".toList⟩,
    ⟨"LogLevel".toList, .string, some "error".toList, some "The log level".toList⟩,
    ⟨"TextLogging".toList, .bool, some "true".toList,
      some "Log in text format instead of json".toList⟩,
    ⟨"GracePeriod".toList, .duration, some "5s".toList,
      some "Graceful shutdown grace period".toList⟩,
    ⟨"APIKey".toList, .string, some [], some "The API key".toList⟩,
    ⟨"APISecret".toList, .string, some [], some "The API secret".toList⟩ ]

/-- The package variable `configReader` of `config.go`. -/
def configReader : ConfigReader := { ConfigT := Config, EnvPrefix := [] }

/-! ## Auxiliary notions for the theorems -/

/-- One write of a loop body: the field written and the value, `none` when the
body leaves the field alone. -/
def writeField (c : Instance) (w : Str × Option Value) : Instance :=
  match w.2 with
  | some x => storeField c w.1 x
  | none => c

/-- What the body of `WithoutSecrets` writes for a field: nothing for a secret
field, else the value the source holds. -/
def secretWrite (src : Instance) (field : StructField) : Str × Option Value :=
  (field.Name, if (fieldMeta field).2.2 then none else FieldByName src field.Name)

/-- Whether a non-empty default literal of a signed-integer, unsigned-integer
or duration field fails to parse: not a base-10 number of the 64-bit range, or
not a duration literal. -/
def malformedDefault (fracNanos : Nat → Nat → Nat → Nat) (t : GoType) (d : Str) : Bool :=
  match t with
  | .int => (ParseInt d 10 64).2.isSome
  | .int64 => (ParseInt d 10 64).2.isSome
  | .uint => (ParseUint d 10 64).2.isSome
  | .uint8 => (ParseUint d 10 64).2.isSome
  | .uint16 => (ParseUint d 10 64).2.isSome
  | .uint32 => (ParseUint d 10 64).2.isSome
  | .uint64 => (ParseUint d 10 64).2.isSome
  | .duration => (ParseDuration fracNanos d).isNone
  | .named .Int => (ParseInt d 10 64).2.isSome
  | .named .Int64 => (ParseInt d 10 64).2.isSome
  | .named .Uint => (ParseUint d 10 64).2.isSome
  | .named .Uint8 => (ParseUint d 10 64).2.isSome
  | .named .Uint16 => (ParseUint d 10 64).2.isSome
  | .named .Uint32 => (ParseUint d 10 64).2.isSome
  | .named .Uint64 => (ParseUint d 10 64).2.isSome
  | _ => false

/-- The types the reader handles in both of its switches and at its type
assertions: the predeclared `string`, `bool`, `int`, `int64` and `uint64`, and
`time.Duration`.  Another defined type of one of these kinds is not among
them. -/
def supported : GoType → Bool
  | .string => true
  | .bool => true
  | .int => true
  | .int64 => true
  | .duration => true
  | .uint64 => true
  | _ => false

/-- An (ASCII) Go identifier: not empty, of letters, digits and `_`. -/
def isIdentifier (s : Str) : Bool :=
  !s.isEmpty && s.all fun c => c.isAlphanum || c == '_'

/-- The `flag.Value` that `configureFlagSet` registers for a field of a
supported type. -/
def valueFor : GoType → FlagValue
  | .bool => .boolValue
  | .int => .intValue
  | .int64 => .int64Value
  | .duration => .durationValue
  | .uint64 => .uint64Value
  | _ => .stringValue

/-- The flag that `configureFlagSet` registers for a field of a supported
type. -/
def flagFor (field : StructField) : Flag :=
  ⟨toArgName field.Name, (fieldMeta field).2.1, valueFor field.Typ, field.Name⟩

/-- The coerced default literal of a field of a supported type. -/
def coerceDefault (fracNanos : Nat → Nat → Nat → Nat) (t : GoType) (d : Str) : Value :=
  match t with
  | .string => .str d
  | .bool => .bool (decide (d = "true".toList))
  | .int => .int (ParseInt d 10 64).1
  | .int64 => .int (ParseInt d 10 64).1
  | .uint64 => .uint (ParseUint d 10 64).1
  | .duration => .int ((ParseDuration fracNanos d).getD 0)
  | t => zeroValue t

/-- The value a field holds after the default pass: the coerced default
literal when it is not empty, else the zero value of the kind. -/
def defaultOf (fracNanos : Nat → Nat → Nat → Nat) (field : StructField) : Value :=
  if (fieldMeta field).1 = [] then zeroValue field.Typ
  else coerceDefault fracNanos field.Typ (fieldMeta field).1

/-- What the default pass writes for a field. -/
def defaultWrite (fracNanos : Nat → Nat → Nat → Nat) (field : StructField) :
    Str × Option Value :=
  (field.Name,
    if (fieldMeta field).1 = [] then none
    else some (coerceDefault fracNanos field.Typ (fieldMeta field).1))

/-- The environment value the environment pass selects for a flag: that of
the prefixed name, else that of the unprefixed name. -/
def selectedEnv (reader : ConfigReader) (env : Str → Option Str) (flagName : Str) :
    Option Str :=
  match env (envNameWithPrefix reader flagName) with
  | some val => some val
  | none => env (envName flagName)

/-- What the environment pass writes for a flag. -/
def envWrite (fracNanos : Nat → Nat → Nat → Nat) (reader : ConfigReader)
    (env : Str → Option Str) (fl : Flag) : Str × Option Value :=
  (fl.cell, (selectedEnv reader env fl.Name).map fun val => (fl.Value.parse fracNanos val).1)

/-- The argument `--name=value`. -/
def flagToken (a : Str × Str) : Str :=
  '-' :: '-' :: (a.1 ++ '=' :: a.2)

/-- The value the command line supplies for a flag name: that of the last
argument `--name=value` with this name. -/
def cliValue : List (Str × Str) → Str → Option Str
  | [], _ => none
  | a :: rest, name =>
    match cliValue rest name with
    | some v => some v
    | none => if a.1 = name then some a.2 else none

/-- The value the precedence rule of the specification gives a field: the
parsed command-line value if the flag is supplied, else the parsed value of
the prefixed environment name if set, else that of the unprefixed name if set,
else the coerced default literal if not empty, else the zero value. -/
def resolved (fracNanos : Nat → Nat → Nat → Nat) (reader : ConfigReader)
    (env : Str → Option Str) (args : List (Str × Str)) (field : StructField) : Value :=
  match cliValue args (toArgName field.Name) with
  | some v => ((valueFor field.Typ).parse fracNanos v).1
  | none =>
    match env (reader.EnvPrefix ++ envName (toArgName field.Name)) with
    | some v => ((valueFor field.Typ).parse fracNanos v).1
    | none =>
      match env (envName (toArgName field.Name)) with
      | some v => ((valueFor field.Typ).parse fracNanos v).1
      | none =>
        if (fieldMeta field).1 = [] then zeroValue field.Typ
        else coerceDefault fracNanos field.Typ (fieldMeta field).1

/-- The default literal in the words of the specification: the text of the
config tag before its first comma, the whole tag when it has no comma, the
empty text when the tag is absent. -/
def tagDefault (field : StructField) : Str :=
  match field.configTag with
  | some tag => tag.takeWhile fun c => c != ','
  | none => []

/-- The second comma-delimited token of a tag: the text between its first
comma and the next one (or the end); `none` when the tag has no comma. -/
def secondToken (tag : Str) : Option Str :=
  match tag.dropWhile fun c => c != ',' with
  | [] => none
  | _ :: rest => some (rest.takeWhile fun c => c != ',')

/-- The secret flag in the words of the specification: true exactly when the
config tag has a second comma-delimited token equal to `secret`. -/
def tagSecret (field : StructField) : Bool :=
  match field.configTag with
  | some tag => decide (secondToken tag = some "secret".toList)
  | none => false

/-- The description in the words of the specification: the desc tag, or the
empty text. -/
def tagDescription (field : StructField) : Str :=
  match field.descTag with
  | some tag => tag
  | none => []

/-- A loop body that records its call at the end of a log and does nothing
else. -/
def recordCall (field : StructField) (defaultValue description : Str) (secret : Bool)
    (log : List (StructField × Str × Str × Bool)) :
    Outcome (List (StructField × Str × Str × Bool)) :=
  .ret (log ++ [(field, defaultValue, description, secret)])

/-- A flag written as one argument: `--name=value` or `-name=value`, or the
bare `--name` or `-name`, which `flag` accepts for a boolean flag. -/
def flagArg (a : Bool × Str × Option Str) : Str :=
  (if a.1 then ['-', '-'] else ['-']) ++ a.2.1 ++
    (match a.2.2 with
      | some v => '=' :: v
      | none => [])

/-- A well-formed recognised flag token for a settings structure: its name is
the flag name of a field, and its value parses for the field; a bare flag is
that of a boolean field. -/
def wellFormedArg (fracNanos : Nat → Nat → Nat → Nat) (fs : List StructField)
    (a : Bool × Str × Option Str) : Prop :=
  ∃ f ∈ fs, a.2.1 = toArgName f.Name
    ∧ match a.2.2 with
      | some v => ((valueFor f.Typ).parse fracNanos v).2 = false
      | none => f.Typ = .bool

/-! # Theorems -/

/-! ### Character classes -/

theorem isUpper_iff (c : Char) : c.isUpper = true ↔ 65 ≤ c.toNat ∧ c.toNat ≤ 90 := by
  rcases c with ⟨⟨⟨v, hv⟩⟩, hc⟩
  simp [Char.isUpper, Char.toNat, UInt32.le_def, Fin.le_def, UInt32.toNat]
  exact Iff.rfl

theorem isLower_iff (c : Char) : c.isLower = true ↔ 97 ≤ c.toNat ∧ c.toNat ≤ 122 := by
  rcases c with ⟨⟨⟨v, hv⟩⟩, hc⟩
  simp [Char.isLower, Char.toNat, UInt32.le_def, Fin.le_def, UInt32.toNat]
  exact Iff.rfl

theorem isDigit_iff (c : Char) : c.isDigit = true ↔ 48 ≤ c.toNat ∧ c.toNat ≤ 57 := by
  rcases c with ⟨⟨⟨v, hv⟩⟩, hc⟩
  simp [Char.isDigit, Char.toNat, UInt32.le_def, Fin.le_def, UInt32.toNat]
  exact Iff.rfl

theorem toNat_ofNat_small (n : Nat) (h : n < 55296) : (Char.ofNat n).toNat = n := by
  unfold Char.ofNat
  have hv : n.isValidChar := Or.inl h
  simp [hv, Char.ofNatAux, Char.toNat, UInt32.toNat]

theorem char_eq_iff (c d : Char) : c = d ↔ c.toNat = d.toNat := by
  constructor
  · rintro rfl; rfl
  · intro h
    rw [← Char.ofNat_toNat c, ← Char.ofNat_toNat d, h]

theorem toLower_toNat (c : Char) :
    c.toLower.toNat = if 65 ≤ c.toNat ∧ c.toNat ≤ 90 then c.toNat + 32 else c.toNat := by
  unfold Char.toLower
  by_cases h : 65 ≤ c.toNat ∧ c.toNat ≤ 90
  · simp only [ge_iff_le, h, and_self, if_true]
    exact toNat_ofNat_small _ (by omega)
  · simp only [ge_iff_le, h, if_false]

theorem toUpper_toNat (c : Char) :
    c.toUpper.toNat = if 97 ≤ c.toNat ∧ c.toNat ≤ 122 then c.toNat - 32 else c.toNat := by
  unfold Char.toUpper
  by_cases h : 97 ≤ c.toNat ∧ c.toNat ≤ 122
  · simp only [ge_iff_le, h, and_self, if_true]
    exact toNat_ofNat_small _ (by omega)
  · simp only [ge_iff_le, h, if_false]

theorem isUpper_not_isLower {c : Char} (h : c.isUpper = true) : c.isLower = false := by
  rw [isUpper_iff] at h
  rw [Bool.eq_false_iff, Ne, isLower_iff]
  omega

theorem isUpper_not_isDigit {c : Char} (h : c.isUpper = true) : c.isDigit = false := by
  rw [isUpper_iff] at h
  rw [Bool.eq_false_iff, Ne, isDigit_iff]
  omega

theorem isLower_not_isUpper {c : Char} (h : c.isLower = true) : c.isUpper = false := by
  rw [isLower_iff] at h
  rw [Bool.eq_false_iff, Ne, isUpper_iff]
  omega

/-! ### The two replacements of `toArgName` -/

theorem dashAllCap_congr {p q : Option Char} (h : lowDig p = lowDig q) (t : Str) :
    dashAllCap p t = dashAllCap q t := by
  cases t with
  | nil => rfl
  | cons c cs => simp [dashAllCap, h]

theorem kebabFrom_congr {p q : Option Char} (h : lowDig p = lowDig q)
    (hs : p.isSome = q.isSome) (t : Str) : kebabFrom p t = kebabFrom q t := by
  cases t with
  | nil => rfl
  | cons c cs => simp [kebabFrom, h, hs]

theorem lowDig_of_isUpper {u : Char} (h : u.isUpper = true) : lowDig (some u) = false := by
  simp [lowDig, isUpper_not_isLower h, isUpper_not_isDigit h]

theorem lowDig_of_isLower {u : Char} (h : u.isLower = true) : lowDig (some u) = true := by
  simp [lowDig, h]

theorem dashAllCap_upperRun (u : Char) (hu : u.isUpper = true) (rest : Str) :
    dashAllCap (some u) rest
      = rest.takeWhile Char.isUpper ++ dashAllCap none (rest.dropWhile Char.isUpper) := by
  induction rest generalizing u with
  | nil => rfl
  | cons y r ih =>
    by_cases hy : y.isUpper = true
    · simp [dashAllCap, List.takeWhile, List.dropWhile, hy, lowDig_of_isUpper hu, ih y hy]
    · have hy2 : y.isUpper = false := by simpa using hy
      simp [dashAllCap, List.takeWhile, List.dropWhile, hy2, lowDig]

theorem length_dropWhile_le (p : Char → Bool) (l : Str) : (l.dropWhile p).length ≤ l.length := by
  induction l with
  | nil => simp
  | cons a l ih =>
    simp only [List.dropWhile]
    split
    · exact Nat.le_succ_of_le ih
    · exact Nat.le_refl _

theorem replaceAll_allCap (n : Nat) (t : Str) (h : t.length ≤ n) :
    replaceAllAux matchAllCap n t = dashAllCap none t := by
  induction n generalizing t with
  | zero =>
    have : t = [] := List.length_eq_zero.mp (Nat.le_zero.mp h)
    subst this; rfl
  | succ n ih =>
    match t with
    | [] => rfl
    | [c] => simp [replaceAllAux, matchAllCap, dashAllCap, lowDig, ih [] (Nat.zero_le _)]
    | c :: u :: rest =>
      by_cases hm : ((c.isLower || c.isDigit) && u.isUpper) = true
      · have hu : u.isUpper = true := by simp only [Bool.and_eq_true] at hm; exact hm.2
        have hc : lowDig (some c) = true := by simp only [Bool.and_eq_true] at hm; exact hm.1
        have hlen : (rest.dropWhile Char.isUpper).length ≤ n := by
          have := length_dropWhile_le Char.isUpper rest
          simp only [List.length_cons] at h
          omega
        simp only [replaceAllAux, matchAllCap, hm, if_true, ih _ hlen, dashAllCap, lowDig,
          Bool.false_and, Bool.false_eq_true, if_false, List.nil_append]
        rw [show lowDig (some c) = (c.isLower || c.isDigit) from rfl] at hc
        simp [hc, hu, dashAllCap_upperRun u hu rest]
      · have hm2 : ((c.isLower || c.isDigit) && u.isUpper) = false := by simpa using hm
        have hlen : (u :: rest).length ≤ n := by
          simp only [List.length_cons] at h ⊢
          omega
        simp only [replaceAllAux, matchAllCap, hm2, ih _ hlen, dashAllCap, lowDig,
          Bool.false_and, Bool.false_eq_true, if_false, List.nil_append]

theorem dashAllCap_lowerRun (q : Char) (hq : q.isLower = true) (run t : Str)
    (hrun : ∀ x ∈ run, x.isLower = true) :
    dashAllCap (some q) (run ++ t) = run ++ dashAllCap (some q) t := by
  induction run generalizing q with
  | nil => rfl
  | cons y r ih =>
    have hy : y.isLower = true := hrun y (List.mem_cons_self _ _)
    have hr : ∀ x ∈ r, x.isLower = true := fun x hx => hrun x (List.mem_cons_of_mem _ hx)
    have hc : dashAllCap (some y) t = dashAllCap (some q) t :=
      dashAllCap_congr (by rw [lowDig_of_isLower hy, lowDig_of_isLower hq]) t
    simp [dashAllCap, isLower_not_isUpper hy, ih y hy hr, hc]

theorem kebabFrom_lowerRun (q : Char) (hq : q.isLower = true) (run t : Str)
    (hrun : ∀ x ∈ run, x.isLower = true) :
    kebabFrom (some q) (run ++ t) = run.map Char.toLower ++ kebabFrom (some q) t := by
  induction run generalizing q with
  | nil => rfl
  | cons y r ih =>
    have hy : y.isLower = true := hrun y (List.mem_cons_self _ _)
    have hr : ∀ x ∈ r, x.isLower = true := fun x hx => hrun x (List.mem_cons_of_mem _ hx)
    have hc : kebabFrom (some y) t = kebabFrom (some q) t :=
      @kebabFrom_congr (some y) (some q) (by rw [lowDig_of_isLower hy, lowDig_of_isLower hq]) rfl t
    simp [kebabFrom, isLower_not_isUpper hy, ih y hy hr, hc]

theorem toLower_dash : Char.toLower '-' = '-' := by decide

/-- Both replacements together, followed by the lower-casing, give the form of
`kebabFrom`, provided the character before the input is absent, a lower-case
letter, or not followed by `[A-Z][a-z]`. -/
theorem replaceAll_firstCap (n : Nat) (s : Str) (p : Option Char) (h : s.length ≤ n)
    (hnl : ∀ c ∈ s, c ≠ '\n')
    (hinv : p = none ∨ (∃ q, p = some q ∧ q.isLower = true) ∨ firstCapAhead s = false) :
    (dashAllCap p (replaceAllAux matchFirstCap n s)).map Char.toLower = kebabFrom p s := by
  induction n generalizing s p with
  | zero =>
    have : s = [] := List.length_eq_zero.mp (Nat.le_zero.mp h)
    subst this; rfl
  | succ n ih =>
    match s, h, hnl, hinv with
    | [], _, _, _ => rfl
    | c :: cs, h, hnl, hinv =>
      have hcn : (c != '\n') = true := by simpa using hnl c (List.mem_cons_self _ _)
      have hcs : ∀ x ∈ cs, x ≠ '\n' := fun x hx => hnl x (List.mem_cons_of_mem _ hx)
      have hlen : cs.length ≤ n := by simp only [List.length_cons] at h; omega
      -- the dash before `c` is the same on both sides
      have hhead : (lowDig p && c.isUpper)
          = (p.isSome && c.isUpper && (nextLower cs || lowDig p)) := by
        rcases hinv with hp | ⟨q, hp, hq⟩ | hf
        · subst hp; simp [lowDig]
        · subst hp; simp [lowDig, hq]
        · simp only [firstCapAhead] at hf
          cases p with
          | none => simp [lowDig]
          | some q =>
            cases hu : c.isUpper <;> cases hl : nextLower cs <;> simp_all
      by_cases hm : firstCapAhead cs = true
      · -- `(.)([A-Z][a-z]+)` matches at `c`
        match cs, hm, hcs, hlen, hhead with
        | u :: l :: rest, hm, hcs, hlen, hhead =>
          simp only [firstCapAhead, nextLower, Bool.and_eq_true] at hm
          obtain ⟨hu, hl⟩ := hm
          have hlen2 : (rest.dropWhile Char.isLower).length ≤ n := by
            have := length_dropWhile_le Char.isLower rest
            simp only [List.length_cons] at hlen
            omega
          have hdw : ∀ x ∈ rest.dropWhile Char.isLower, x ≠ '\n' := fun x hx =>
            hcs x (List.mem_cons_of_mem _ (List.mem_cons_of_mem _
              ((List.dropWhile_sublist _).subset hx)))
          have hrec := ih (rest.dropWhile Char.isLower) (some l) hlen2 hdw
            (Or.inr (Or.inl ⟨l, rfl, hl⟩))
          have hsplit := List.takeWhile_append_dropWhile Char.isLower rest
          have hrun : ∀ x ∈ rest.takeWhile Char.isLower, x.isLower = true :=
            fun x hx => List.mem_takeWhile_imp hx
          have hk : kebabFrom (some l) rest = (rest.takeWhile Char.isLower).map Char.toLower
              ++ kebabFrom (some l) (rest.dropWhile Char.isLower) := by
            conv_lhs => rw [← hsplit]
            exact kebabFrom_lowerRun l hl _ _ hrun
          simp only [replaceAllAux, matchFirstCap, hcn, hu, hl, Bool.and_self, if_true,
            List.cons_append, List.nil_append, dashAllCap, List.append_assoc]
          rw [dashAllCap_lowerRun l hl _ _ hrun]
          simp only [kebabFrom, hk, ← hrec, hhead]
          simp [lowDig, hu, hl, isLower_not_isUpper hl, nextLower, toLower_dash,
            show Char.isUpper '-' = false by decide, show Char.isLower '-' = false by decide,
            show Char.isDigit '-' = false by decide]
          split <;> simp [toLower_dash]
        | [u], hm, _, _, _ => simp [firstCapAhead, nextLower] at hm
        | [], hm, _, _, _ => simp [firstCapAhead] at hm
      · have hm2 : firstCapAhead cs = false := by simpa using hm
        have hnone : matchFirstCap (c :: cs) = none := by
          match cs, hm2 with
          | [], _ => rfl
          | [u], _ => rfl
          | u :: l :: rest, hm2 =>
            simp only [firstCapAhead, nextLower] at hm2
            simp [matchFirstCap, hm2, Bool.and_assoc]
        have hrec := ih cs (some c) hlen hcs (Or.inr (Or.inr hm2))
        simp only [replaceAllAux, hnone, dashAllCap, kebabFrom, List.map_append, List.map_cons,
          hrec, hhead]
        split <;> simp [toLower_dash]

theorem getD_at_length (pre : Str) (c : Char) (cs : Str) :
    (pre ++ c :: cs).getD pre.length ' ' = c := by
  rw [List.getD_append_right _ _ _ _ (Nat.le_refl _)]
  simp

theorem getD_after_length (pre : Str) (c : Char) (cs : Str) :
    ((pre ++ c :: cs).getD (pre.length + 1) ' ').isLower = nextLower cs := by
  rw [List.getD_append_right _ _ _ _ (Nat.le_succ _)]
  cases cs with
  | nil => simp [nextLower]
  | cons d ds => simp [nextLower]

theorem getD_before_length (pre : Str) (q c : Char) (cs : Str) :
    ((pre ++ [q]) ++ c :: cs).getD ((pre ++ [q]).length - 1) ' ' = q := by
  rw [List.append_assoc, List.getD_append_right _ _ _ _ (by simp)]
  simp

theorem kebabSpec_from (t pre : Str) :
    (List.range' pre.length t.length).flatMap (fun i =>
      (if boundaryBefore (pre ++ t) i then ['-'] else []) ++ [((pre ++ t).getD i ' ').toLower])
      = kebabFrom pre.getLast? t := by
  induction t generalizing pre with
  | nil => simp [kebabFrom]
  | cons c cs ih =>
    have hrec := ih (pre ++ [c])
    have hl2 : (pre ++ [c]).getLast? = some c := by simp
    rw [hl2] at hrec
    simp only [List.append_assoc, List.singleton_append, List.length_append,
      List.length_singleton] at hrec
    simp only [List.length_cons, List.range'_succ, List.flatMap_cons, hrec, kebabFrom,
      getD_at_length, List.append_assoc, List.singleton_append]
    congr 1
    rcases List.eq_nil_or_concat pre with hp | ⟨init, q, hp⟩
    · subst hp; simp [boundaryBefore]
    · have hp2 : pre = init ++ [q] := by rw [hp, List.concat_eq_append]
      have h1 : (pre ++ c :: cs).getD (pre.length - 1) ' ' = q := by
        rw [hp2]; exact getD_before_length init q c cs
      have hpos : decide (0 < pre.length) = true := by simp [hp2]
      have hl : pre.getLast? = some q := by simp [hp2]
      unfold boundaryBefore
      rw [h1, getD_after_length, getD_at_length, hpos, hl]
      simp [lowDig, Bool.or_assoc]

theorem toArgName_eq_kebabFrom (s : Str) (hnl : ∀ c ∈ s, c ≠ '\n') :
    toArgName s = kebabFrom none s := by
  unfold toArgName ReplaceAllString ToLower
  simp only
  rw [replaceAll_allCap _ _ (Nat.le_refl _)]
  exact replaceAll_firstCap s.length s none (Nat.le_refl _) hnl (Or.inl rfl)

theorem kebabSpec_eq_kebabFrom (s : Str) : kebabSpec s = kebabFrom none s := by
  have h := kebabSpec_from s []
  simpa [kebabSpec, List.range_eq_range'] using h

theorem isAlphanum_ne_newline {c : Char} (h : c.isAlphanum = true) : c ≠ '\n' := by
  rintro rfl
  revert h
  decide

theorem isAlphanum_iff (c : Char) :
    c.isAlphanum = true ↔ c.isUpper = true ∨ c.isLower = true ∨ c.isDigit = true := by
  simp [Char.isAlphanum, Char.isAlpha, or_assoc]

theorem toLower_ne_dash {c : Char} (h : c.isAlphanum = true) : c.toLower ≠ '-' := by
  rw [isAlphanum_iff, isUpper_iff, isLower_iff, isDigit_iff] at h
  rw [Ne, char_eq_iff, toLower_toNat]
  have : Char.toNat '-' = 45 := by decide
  rw [this]
  split <;> omega

theorem kebabFrom_filter (p : Option Char) (s : Str) (hs : ∀ c ∈ s, c.isAlphanum = true) :
    (kebabFrom p s).filter (fun c => c != '-') = s.map Char.toLower := by
  induction s generalizing p with
  | nil => rfl
  | cons c cs ih =>
    have hc : (c.toLower != '-') = true := by
      simpa using toLower_ne_dash (hs c (List.mem_cons_self _ _))
    have hrec := ih (some c) (fun x hx => hs x (List.mem_cons_of_mem _ hx))
    simp only [kebabFrom, List.filter_append, List.filter_cons, hc, if_true, hrec, List.map_cons]
    split <;> simp

/-- C6: for every identifier `s` of ASCII letters and digits, `toArgName s`
is `s` lower-cased with one `-` inserted before exactly the positions `i > 0`
where `s[i]` is an upper-case letter and either `s[i+1]` is a lower-case letter
or `s[i-1]` is a lower-case letter or a digit (`kebabSpec`); apart from the
inserted dashes it is `s` lower-cased, nothing added, removed or reordered.
`GracePeriod` gives `grace-period` and `APIKey` gives `api-key`. -/
theorem toArgName_kebab (s : Str) (hs : ∀ c ∈ s, c.isAlphanum = true) :
    toArgName s = kebabSpec s
    ∧ (toArgName s).filter (fun c => c != '-') = ToLower s
    ∧ toArgName "GracePeriod".toList = "grace-period".toList
    ∧ toArgName "APIKey".toList = "api-key".toList := by
  have h := toArgName_eq_kebabFrom s (fun c hc => isAlphanum_ne_newline (hs c hc))
  refine ⟨by rw [h, kebabSpec_eq_kebabFrom], ?_, by decide, by decide⟩
  rw [h]
  exact kebabFrom_filter none s hs

/-- C6, at the identifier `HTTPServer2Go`: the result is `http-server2-go`. -/
theorem toArgName_kebab_witness :
    (∀ c ∈ "HTTPServer2Go".toList, c.isAlphanum = true)
    ∧ toArgName "HTTPServer2Go".toList = kebabSpec "HTTPServer2Go".toList
    ∧ kebabSpec "HTTPServer2Go".toList = "http-server2-go".toList :=
  ⟨by decide, (toArgName_kebab "HTTPServer2Go".toList (by decide)).1, by decide⟩

theorem mem_kebabFrom (p : Option Char) (s : Str) (x : Char) (hx : x ∈ kebabFrom p s) :
    x = '-' ∨ ∃ c ∈ s, x = c.toLower := by
  induction s generalizing p with
  | nil => simp [kebabFrom] at hx
  | cons c cs ih =>
    simp only [kebabFrom, List.mem_append, List.mem_cons] at hx
    rcases hx with h | h | h
    · left
      split at h
      · simpa using h
      · simp at h
    · exact Or.inr ⟨c, List.mem_cons_self _ _, h⟩
    · rcases ih (some c) h with h1 | ⟨d, hd, h1⟩
      · exact Or.inl h1
      · exact Or.inr ⟨d, List.mem_cons_of_mem _ hd, h1⟩

theorem toUpper_toLower_class {c : Char} (h : c.isAlphanum = true) :
    c.toLower.toUpper ≠ '-' ∧ (c.toLower.toUpper.isUpper = true ∨ c.toLower.toUpper.isDigit = true) := by
  rw [isAlphanum_iff, isUpper_iff, isLower_iff, isDigit_iff] at h
  rw [Ne, char_eq_iff, isUpper_iff, isDigit_iff, toUpper_toNat, toLower_toNat]
  have : Char.toNat '-' = 45 := by decide
  rw [this]
  split <;> split <;> omega

/-- C7: for every field name `s` of ASCII letters and digits and every
prefix, the environment name looked up first is the prefix followed by
`toArgName s` upper-cased with every `-` replaced by `_`; the part after the
prefix holds only `A`-`Z`, `0`-`9` and `_`; when that name is set, its value is
the one handed to the flag.  `GracePeriod` gives `GRACE_PERIOD` with an empty
prefix and `APP_GRACE_PERIOD` with the prefix `APP_`; `APIKey` gives
`API_KEY`. -/
theorem envNameWithPrefix_upperSnake (reader : ConfigReader) (s : Str)
    (hs : ∀ c ∈ s, c.isAlphanum = true) :
    envNameWithPrefix reader (toArgName s)
      = reader.EnvPrefix ++ (kebabSpec s).map (fun c => if c = '-' then '_' else c.toUpper)
    ∧ (∀ c ∈ envName (toArgName s), c.isUpper = true ∨ c.isDigit = true ∨ c = '_')
    ∧ (∀ (fracNanos : Nat → Nat → Nat → Nat) (env : Str → Option Str) (fl : Flag)
        (config : Instance) (val : Str), fl.Name = toArgName s →
        env (envNameWithPrefix reader fl.Name) = some val →
        applyEnv fracNanos reader env fl config = (fl.Set fracNanos val config).1)
    ∧ envNameWithPrefix ⟨[], []⟩ (toArgName "GracePeriod".toList) = "GRACE_PERIOD".toList
    ∧ envNameWithPrefix ⟨[], "APP_".toList⟩ (toArgName "GracePeriod".toList)
        = "APP_GRACE_PERIOD".toList
    ∧ envNameWithPrefix ⟨[], []⟩ (toArgName "APIKey".toList) = "API_KEY".toList := by
  have hk := kebabSpec_eq_kebabFrom s
  have h : toArgName s = kebabSpec s := by
    rw [toArgName_eq_kebabFrom s (fun c hc => isAlphanum_ne_newline (hs c hc)), hk]
  refine ⟨?_, ?_, ?_, by decide, by decide, by decide⟩
  · rw [h]
    simp only [envNameWithPrefix, envName, Replace, ToUpper, List.map_map]
    congr 1
    apply List.map_congr_left
    intro c _
    by_cases hc : c = '-'
    · subst hc; decide
    · have h2 : c.toUpper ≠ '-' := by
        rw [Ne, char_eq_iff, toUpper_toNat]
        rw [char_eq_iff] at hc
        have : Char.toNat '-' = 45 := by decide
        rw [this] at hc ⊢
        split <;> omega
      simp [hc, h2]
  · intro c hc
    rw [h, hk] at hc
    simp only [envName, Replace, ToUpper, List.map_map, List.mem_map, Function.comp] at hc
    obtain ⟨x, hx, rfl⟩ := hc
    rcases mem_kebabFrom none s x hx with h1 | ⟨d, hd, h1⟩
    · subst h1; right; right; decide
    · subst h1
      obtain ⟨h2, h3⟩ := toUpper_toLower_class (hs d hd)
      simp only [h2, if_false]
      rcases h3 with h3 | h3
      · exact Or.inl h3
      · exact Or.inr (Or.inl h3)
  · intro fracNanos env fl config val _ henv
    simp [applyEnv, henv]

/-- C7, at the field name `LogLevel` and the prefix `APP_`: the name looked up
first is `APP_LOG_LEVEL`. -/
theorem envNameWithPrefix_upperSnake_witness :
    (∀ c ∈ "LogLevel".toList, c.isAlphanum = true)
    ∧ envNameWithPrefix ⟨[], "APP_".toList⟩ (toArgName "LogLevel".toList)
      = "APP_".toList ++ (kebabSpec "LogLevel".toList).map
          (fun c => if c = '-' then '_' else c.toUpper)
    ∧ envNameWithPrefix ⟨[], "APP_".toList⟩ (toArgName "LogLevel".toList)
      = "APP_LOG_LEVEL".toList :=
  ⟨by decide,
    (envNameWithPrefix_upperSnake ⟨[], "APP_".toList⟩ "LogLevel".toList (by decide)).1,
    by decide⟩

/-! ### Settings instances -/

theorem FieldByName_storeField (c : Instance) (m n : Str) (x : Value) :
    FieldByName (storeField c m x) n
      = if m = n then (FieldByName c n).map (fun _ => x) else FieldByName c n := by
  induction c with
  | nil => simp [storeField, FieldByName]
  | cons e rest ih =>
    obtain ⟨k, y⟩ := e
    by_cases hkm : k = m <;> by_cases hmn : m = n <;> by_cases hkn : k = n <;>
      simp_all [storeField, FieldByName]

theorem map_fst_storeField (c : Instance) (m : Str) (x : Value) :
    (storeField c m x).map Prod.fst = c.map Prod.fst := by
  induction c with
  | nil => rfl
  | cons e rest ih =>
    obtain ⟨k, y⟩ := e
    by_cases hkm : k = m <;> simp [storeField, hkm, ih]

theorem FieldByName_isSome (c : Instance) (n : Str) :
    (FieldByName c n).isSome = true ↔ n ∈ c.map Prod.fst := by
  induction c with
  | nil => simp [FieldByName]
  | cons e rest ih =>
    obtain ⟨k, y⟩ := e
    rw [List.map_cons, List.mem_cons]
    by_cases hk : k = n
    · simp only [FieldByName, hk, if_true, Option.isSome_some, true_iff]
      exact Or.inl trivial
    · simp only [FieldByName, hk, if_false, ih]
      constructor
      · exact Or.inr
      · rintro (h | h)
        · exact absurd h.symm hk
        · exact h

theorem map_fst_writeField (c : Instance) (w : Str × Option Value) :
    (writeField c w).map Prod.fst = c.map Prod.fst := by
  unfold writeField
  split
  · exact map_fst_storeField _ _ _
  · rfl

theorem map_fst_foldl_writeField (ws : List (Str × Option Value)) (c : Instance) :
    (ws.foldl writeField c).map Prod.fst = c.map Prod.fst := by
  induction ws generalizing c with
  | nil => rfl
  | cons w rest ih => rw [List.foldl_cons, ih, map_fst_writeField]

/-- A field no write of the list sets keeps its value. -/
theorem FieldByName_foldl_untouched (ws : List (Str × Option Value)) (c : Instance) (n : Str)
    (h : ∀ x, (n, some x) ∉ ws) :
    FieldByName (ws.foldl writeField c) n = FieldByName c n := by
  induction ws generalizing c with
  | nil => rfl
  | cons w rest ih =>
    rw [List.foldl_cons, ih _ (fun x hx => h x (List.mem_cons_of_mem _ hx))]
    obtain ⟨m, o⟩ := w
    cases o with
    | none => rfl
    | some y =>
      have hmn : ¬ m = n := by
        intro hmn
        exact h y (by rw [hmn]; exact List.mem_cons_self _ _)
      simp [writeField, FieldByName_storeField, hmn]

/-- With one write per field name, a field that is set holds the value of its
write. -/
theorem FieldByName_foldl_set (ws : List (Str × Option Value)) (c : Instance) (n : Str)
    (x : Value) (hnd : (ws.map Prod.fst).Nodup) (hx : (n, some x) ∈ ws) :
    FieldByName (ws.foldl writeField c) n = (FieldByName c n).map (fun _ => x) := by
  induction ws generalizing c with
  | nil => simp at hx
  | cons w rest ih =>
    rw [List.map_cons, List.nodup_cons] at hnd
    rw [List.foldl_cons]
    rcases List.mem_cons.mp hx with hw | hw
    · subst hw
      rw [FieldByName_foldl_untouched rest _ n]
      · simp [writeField, FieldByName_storeField]
      · intro y hy
        exact hnd.1 (List.mem_map.mpr ⟨(n, some y), hy, rfl⟩)
    · rw [ih _ hnd.2 hw]
      obtain ⟨m, o⟩ := w
      have hmn : ¬ m = n := by
        intro hmn
        exact hnd.1 (List.mem_map.mpr ⟨(n, some x), hw, hmn.symm⟩)
      cases o with
      | none => rfl
      | some y => simp [writeField, FieldByName_storeField, hmn]

theorem FieldByName_zeroes (fs : List StructField) (field : StructField)
    (hnd : (fs.map (fun f => f.Name)).Nodup) (hf : field ∈ fs) :
    FieldByName (fs.map fun f => (f.Name, zeroValue f.Typ)) field.Name
      = some (zeroValue field.Typ) := by
  induction fs with
  | nil => simp at hf
  | cons g rest ih =>
    rw [List.map_cons, List.nodup_cons] at hnd
    rcases List.mem_cons.mp hf with h | h
    · subst h; simp [FieldByName]
    · have hne : ¬ g.Name = field.Name := by
        intro hg
        exact hnd.1 (List.mem_map.mpr ⟨field, h, hg.symm⟩)
      simp only [List.map_cons, FieldByName, hne, if_false]
      exact ih hnd.2 h

theorem map_fst_newConfig (reader : ConfigReader) :
    (newConfig reader).map Prod.fst = reader.ConfigT.map (fun f => f.Name) := by
  simp [newConfig, List.map_map, Function.comp]

/-! ### `WithoutSecrets` -/

theorem iterateFields_cons {σ : Type} (body : StructField → Str → Str → Bool → σ → Outcome σ)
    (f : StructField) (rest : List StructField) (s : σ) :
    iterateFields body (f :: rest) s
      = (body f (fieldMeta f).1 (fieldMeta f).2.1 (fieldMeta f).2.2 s).bind
          (iterateFields body rest) := rfl

theorem withoutSecretsBody_eq (src : Instance) (f : StructField) (d1 d2 : Str) (dst : Instance)
    (h : f.Name ∈ src.map Prod.fst)
    (he : (fieldMeta f).2.2 = false → IsExported f.Name = true) :
    withoutSecretsBody src f d1 d2 (fieldMeta f).2.2 dst
      = .ret (writeField dst (secretWrite src f)) := by
  have hsome := (FieldByName_isSome src f.Name).mpr h
  obtain ⟨x, hx⟩ := Option.isSome_iff_exists.mp hsome
  unfold withoutSecretsBody writeField secretWrite setField
  cases hs : (fieldMeta f).2.2
  · simp [hx, he hs]
  · simp [hx]

theorem iterateFields_withoutSecrets (src : Instance) (fs : List StructField) (dst : Instance)
    (h : ∀ f ∈ fs, f.Name ∈ src.map Prod.fst)
    (he : ∀ f ∈ fs, (fieldMeta f).2.2 = false → IsExported f.Name = true) :
    iterateFields (withoutSecretsBody src) fs dst
      = .ret ((fs.map (secretWrite src)).foldl writeField dst) := by
  induction fs generalizing dst with
  | nil => rfl
  | cons f rest ih =>
    rw [iterateFields_cons, withoutSecretsBody_eq _ _ _ _ _ (h f (List.mem_cons_self _ _))
      (he f (List.mem_cons_self _ _))]
    exact ih _ (fun g hg => h g (List.mem_cons_of_mem _ hg))
      (fun g hg => he g (List.mem_cons_of_mem _ hg))

/-- C4, with the condition the code needs: for every settings structure
whose fields that are not secret are exported (its field names distinct, as
Go requires) and every instance `c` of it, `WithoutSecrets` returns an
instance of the structure in which every field whose descriptor is not secret
holds the value `c` holds, and every secret field holds the zero value of its
kind, whatever `c` holds there.  A secret field may be unexported: it is never
set. -/
theorem WithoutSecrets_redacts (reader : ConfigReader) (c : Instance)
    (hnd : (reader.ConfigT.map (fun f => f.Name)).Nodup)
    (he : ∀ f ∈ reader.ConfigT, (fieldMeta f).2.2 = false → IsExported f.Name = true)
    (hc : c.map Prod.fst = reader.ConfigT.map (fun f => f.Name)) :
    ∃ r, WithoutSecrets reader c = .ret r
      ∧ r.map Prod.fst = reader.ConfigT.map (fun f => f.Name)
      ∧ ∀ field ∈ reader.ConfigT,
          FieldByName r field.Name
            = if (fieldMeta field).2.2 = true then some (zeroValue field.Typ)
              else FieldByName c field.Name := by
  have hmem : ∀ f ∈ reader.ConfigT, f.Name ∈ c.map Prod.fst := by
    intro f hf
    rw [hc]
    exact List.mem_map.mpr ⟨f, hf, rfl⟩
  refine ⟨_, iterateFields_withoutSecrets c reader.ConfigT (newConfig reader) hmem he, ?_, ?_⟩
  · rw [map_fst_foldl_writeField, map_fst_newConfig]
  · intro field hf
    have hws : ((reader.ConfigT.map (secretWrite c)).map Prod.fst).Nodup := by
      simpa [List.map_map, Function.comp, secretWrite] using hnd
    have hzero : FieldByName (newConfig reader) field.Name = some (zeroValue field.Typ) :=
      FieldByName_zeroes reader.ConfigT field hnd hf
    by_cases hs : (fieldMeta field).2.2 = true
    · rw [if_pos hs, FieldByName_foldl_untouched, hzero]
      intro x hx
      obtain ⟨g, hg, hgx⟩ := List.mem_map.mp hx
      simp only [secretWrite, Prod.mk.injEq] at hgx
      have hgf : g = field :=
        List.inj_on_of_nodup_map hnd hg hf hgx.1
      rw [hgf, if_pos hs] at hgx
      exact Option.noConfusion hgx.2
    · rw [if_neg hs]
      have hsome := (FieldByName_isSome c field.Name).mpr (hmem field hf)
      obtain ⟨x, hx⟩ := Option.isSome_iff_exists.mp hsome
      have hw : (field.Name, some x) ∈ reader.ConfigT.map (secretWrite c) :=
        List.mem_map.mpr ⟨field, hf, by simp [secretWrite, hs, hx]⟩
      rw [FieldByName_foldl_set _ _ _ x hws hw, hzero, hx]
      rfl

/-- C4, at a structure with a secret token and a plain port: the token is
cleared, the port is kept. -/
theorem WithoutSecrets_redacts_witness :
    ∃ r, WithoutSecrets
          ⟨[⟨"Token".toList, .string, some "t0,secret".toList, none⟩,
            ⟨"Port".toList, .uint64, some "80".toList, none⟩], []⟩
          [("Token".toList, .str "hunter2".toList), ("Port".toList, .uint 8080)] = .ret r
      ∧ FieldByName r "Token".toList = some (.str [])
      ∧ FieldByName r "Port".toList = some (.uint 8080) := by
  obtain ⟨r, h1, _, h3⟩ := WithoutSecrets_redacts
    ⟨[⟨"Token".toList, .string, some "t0,secret".toList, none⟩,
      ⟨"Port".toList, .uint64, some "80".toList, none⟩], []⟩
    [("Token".toList, .str "hunter2".toList), ("Port".toList, .uint 8080)]
    (by decide) (by decide) (by decide)
  refine ⟨r, h1, ?_, ?_⟩
  · exact h3 ⟨"Token".toList, .string, some "t0,secret".toList, none⟩ (by decide)
  · exact h3 ⟨"Port".toList, .uint64, some "80".toList, none⟩ (by decide)

/-- C4 as stated fails for a structure with an unexported field that is not
secret: at `struct{ port string }` and the instance with the port `1`,
`fDst.Set(fSrc)` panics and `WithoutSecrets` returns nothing.  When the same
field is secret it is skipped and the zero instance is returned. -/
theorem WithoutSecrets_redacts_counterexample :
    WithoutSecrets ⟨[⟨"port".toList, .string, none, none⟩], []⟩
        [("port".toList, .str "1".toList)]
      = .panic (.unexportedField "port".toList)
    ∧ WithoutSecrets ⟨[⟨"port".toList, .string, some "8080".toList, none⟩], []⟩
        [("port".toList, .str "1".toList)]
      = .panic (.unexportedField "port".toList)
    ∧ WithoutSecrets ⟨[⟨"port".toList, .string, some ",secret".toList, none⟩], []⟩
        [("port".toList, .str "1".toList)]
      = .ret [("port".toList, .str [])] := by
  decide

/-! ### Panics of the loops -/

/-- A loop whose body never ends the process panics as soon as the body
panics at one of the fields, whatever the state it is run on. -/
theorem iterateFields_panics {σ : Type} (body : StructField → Str → Str → Bool → σ → Outcome σ)
    (hexit : ∀ f d1 d2 b s c, body f d1 d2 b s ≠ .exit c)
    (fs : List StructField) (field : StructField) (hf : field ∈ fs)
    (hp : ∀ s, ∃ p, body field (fieldMeta field).1 (fieldMeta field).2.1 (fieldMeta field).2.2 s
      = .panic p) (s : σ) :
    ∃ p, iterateFields body fs s = .panic p := by
  induction fs generalizing s with
  | nil => simp at hf
  | cons g rest ih =>
    rw [iterateFields_cons]
    cases hb : body g (fieldMeta g).1 (fieldMeta g).2.1 (fieldMeta g).2.2 s with
    | panic p => exact ⟨p, rfl⟩
    | exit c => exact absurd hb (hexit _ _ _ _ _ _)
    | ret s1 =>
      rcases List.mem_cons.mp hf with h | h
      · subst h
        obtain ⟨p, hp1⟩ := hp s
        rw [hp1] at hb
        cases hb
      · exact ih h s1

theorem iterateFields_no_exit {σ : Type} (body : StructField → Str → Str → Bool → σ → Outcome σ)
    (hexit : ∀ f d1 d2 b s c, body f d1 d2 b s ≠ .exit c)
    (fs : List StructField) (s : σ) (c : Nat) : iterateFields body fs s ≠ .exit c := by
  induction fs generalizing s with
  | nil => intro h; cases h
  | cons g rest ih =>
    rw [iterateFields_cons]
    cases hb : body g (fieldMeta g).1 (fieldMeta g).2.1 (fieldMeta g).2.2 s with
    | panic p => intro h; cases h
    | exit c1 => exact absurd hb (hexit _ _ _ _ _ _)
    | ret s1 => exact ih s1

theorem defaultValueBody_no_exit (fracNanos : Nat → Nat → Nat → Nat) (f : StructField)
    (d1 d2 : Str) (b : Bool) (s : Instance) (c : Nat) :
    defaultValueBody fracNanos f d1 d2 b s ≠ .exit c := by
  unfold defaultValueBody setField
  intro h
  repeat' split at h
  all_goals cases h

theorem Var_no_exit (flags : FlagSet) (fl : Flag) (c : Nat) : flags.Var fl ≠ .exit c := by
  unfold FlagSet.Var
  intro h
  repeat' split at h
  all_goals cases h

theorem addrInterface_bind_no_exit (f : StructField) (t : GoType) (s : FlagSet) (fl : Flag)
    (c : Nat) : ((addrInterface f t).bind fun _ => s.Var fl) ≠ .exit c := by
  unfold addrInterface
  intro h
  repeat' split at h
  all_goals first
    | cases h
    | exact Var_no_exit _ _ _ h

theorem configureFlagSetBody_no_exit (f : StructField) (d1 d2 : Str) (b : Bool) (s : FlagSet)
    (c : Nat) : configureFlagSetBody f d1 d2 b s ≠ .exit c := by
  unfold configureFlagSetBody
  intro h
  simp only at h
  repeat' split at h
  all_goals first
    | cases h
    | exact addrInterface_bind_no_exit _ _ _ _ _ h

/-- `Read` panics when `defaultValue` panics. -/
theorem Read_panics_of_defaultValue (fracNanos : Nat → Nat → Nat → Nat) (reader : ConfigReader)
    (f : FlagSet) (env : Str → Option Str) (args : List Str) (p : PanicValue)
    (h : defaultValue fracNanos reader = .panic p) :
    Read fracNanos reader f env args = .panic p := by
  simp [Read, readConfig, h, Outcome.bind]

/-- `Read` panics when `configureFlagSet` does. -/
theorem Read_panics_of_configure (fracNanos : Nat → Nat → Nat → Nat) (reader : ConfigReader)
    (f : FlagSet) (env : Str → Option Str) (args : List Str)
    (h : ∃ p, configureFlagSet reader f = .panic p) :
    ∃ p, Read fracNanos reader f env args = .panic p := by
  obtain ⟨p, hp⟩ := h
  cases hd : defaultValue fracNanos reader with
  | panic q => exact ⟨q, Read_panics_of_defaultValue _ _ _ _ _ _ hd⟩
  | exit c => exact absurd hd (iterateFields_no_exit _ (defaultValueBody_no_exit _) _ _ _)
  | ret c0 => exact ⟨p, by simp [Read, readConfig, hd, hp, Outcome.bind]⟩

theorem configureFlagSetBody_other (field : StructField) (d1 d2 : Str) (b : Bool)
    (flags : FlagSet) (hk : field.Typ.Kind = .Other) :
    configureFlagSetBody field d1 d2 b flags = .panic (.unsupportedKind .Other) := by
  unfold configureFlagSetBody
  simp only [hk]

theorem defaultValueBody_other (fracNanos : Nat → Nat → Nat → Nat) (field : StructField)
    (d1 d2 : Str) (b : Bool) (value : Instance) (hk : field.Typ.Kind = .Other) (hd : d1 ≠ []) :
    defaultValueBody fracNanos field d1 d2 b value = .panic (.unsupportedKind .Other) := by
  unfold defaultValueBody
  simp only [hk, hd, if_false]

/-- C8, as the code has it: for every settings structure with a field whose
kind is outside the supported set, `Read` panics whatever the flag set, the
environment, the arguments and the field's default literal are; `DefaultValue`
panics when that field's default literal is not empty; for an empty literal
the loop of `defaultValue` leaves the field alone without looking at its
kind. -/
theorem unsupported_kind_panics (fracNanos : Nat → Nat → Nat → Nat) (reader : ConfigReader)
    (field : StructField) (hf : field ∈ reader.ConfigT) (hk : field.Typ.Kind = .Other) :
    (∀ (f : FlagSet) (env : Str → Option Str) (args : List Str),
        ∃ p, Read fracNanos reader f env args = .panic p)
    ∧ ((fieldMeta field).1 ≠ [] → ∃ p, DefaultValue fracNanos reader = .panic p)
    ∧ (∀ (desc : Str) (secret : Bool) (value : Instance),
        defaultValueBody fracNanos field [] desc secret value = .ret value) := by
  refine ⟨?_, ?_, ?_⟩
  · intro f env args
    apply Read_panics_of_configure
    exact iterateFields_panics configureFlagSetBody configureFlagSetBody_no_exit
      reader.ConfigT field hf
      (fun s => ⟨_, configureFlagSetBody_other field _ _ _ s hk⟩) f
  · intro hd
    exact iterateFields_panics (defaultValueBody fracNanos)
      (defaultValueBody_no_exit fracNanos) reader.ConfigT field hf
      (fun s => ⟨_, defaultValueBody_other fracNanos field _ _ _ s hk hd⟩) (newConfig reader)
  · intro desc secret value
    simp [defaultValueBody]

/-- C8, at a structure with one field of an unsupported kind and the default
literal `1.5`: `DefaultValue` and `Read` panic. -/
theorem unsupported_kind_panics_witness :
    (∃ p, DefaultValue (fun _ _ _ => 0)
        ⟨[⟨"Rate".toList, .other, some "1.5".toList, none⟩], []⟩ = .panic p)
    ∧ (∃ p, Read (fun _ _ _ => 0) ⟨[⟨"Rate".toList, .other, some "1.5".toList, none⟩], []⟩
        (NewFlagSet .ContinueOnError) (fun _ => none) [] = .panic p) :=
  have h := unsupported_kind_panics (fun _ _ _ => 0)
    ⟨[⟨"Rate".toList, .other, some "1.5".toList, none⟩], []⟩
    ⟨"Rate".toList, .other, some "1.5".toList, none⟩ (by decide) (by decide)
  ⟨h.2.1 (by decide), h.1 _ _ _⟩

/-- C8 as stated fails for the empty default literal: at a structure whose one
field has an unsupported kind and no default, `DefaultValue` returns the zero
instance instead of panicking. -/
theorem unsupported_kind_counterexample :
    (⟨"Rate".toList, .other, some [], none⟩ : StructField).Typ.Kind = .Other
    ∧ DefaultValue (fun _ _ _ => 0) ⟨[⟨"Rate".toList, .other, some [], none⟩], []⟩
        = .ret [("Rate".toList, .other 0)]
    ∧ DefaultValue (fun _ _ _ => 0) ⟨[⟨"Rate".toList, .other, none, none⟩], []⟩
        = .ret [("Rate".toList, .other 0)] := by
  decide

/-! ### Malformed default literals -/

theorem defaultValueBody_malformed (fracNanos : Nat → Nat → Nat → Nat) (field : StructField)
    (d1 d2 : Str) (b : Bool) (value : Instance) (hd : d1 ≠ [])
    (hm : malformedDefault fracNanos field.Typ d1 = true) :
    ∃ p, defaultValueBody fracNanos field d1 d2 b value = .panic p := by
  unfold defaultValueBody
  simp only [hd, if_false]
  have hint : (ParseInt d1 10 64).2.isSome = true →
      ∃ p, (match ParseInt d1 10 64 with
        | (_, some _) => Outcome.panic (.parseError d1)
        | (i, none) => setField value field.Name (.int i)) = .panic p := by
    intro h
    rcases hp : ParseInt d1 10 64 with ⟨i, _ | e⟩
    · rw [hp] at h; cases h
    · exact ⟨_, rfl⟩
  have huint : (ParseUint d1 10 64).2.isSome = true →
      ∃ p, (match ParseUint d1 10 64 with
        | (_, some _) => Outcome.panic (.parseError d1)
        | (i, none) => setField value field.Name (.uint i)) = .panic p := by
    intro h
    rcases hp : ParseUint d1 10 64 with ⟨i, _ | e⟩
    · rw [hp] at h; cases h
    · exact ⟨_, rfl⟩
  cases ht : field.Typ with
  | named k =>
    cases k <;> simp only [ht, malformedDefault, GoType.Kind] at hm ⊢ <;> first
      | exact ⟨_, rfl⟩
      | cases hm
      | exact hint hm
      | exact huint hm
  | string => simp only [ht, malformedDefault] at hm; cases hm
  | bool => simp only [ht, malformedDefault] at hm; cases hm
  | other => simp only [ht, malformedDefault] at hm; cases hm
  | int => simp only [ht, malformedDefault, GoType.Kind] at hm ⊢; exact hint hm
  | int64 => simp only [ht, malformedDefault, GoType.Kind] at hm ⊢; exact hint hm
  | uint64 => simp only [ht, malformedDefault, GoType.Kind] at hm ⊢; exact huint hm
  | uint => exact ⟨_, rfl⟩
  | uint8 => exact ⟨_, rfl⟩
  | uint16 => exact ⟨_, rfl⟩
  | uint32 => exact ⟨_, rfl⟩
  | duration =>
    simp only [ht, malformedDefault, GoType.Kind] at hm ⊢
    cases hp : ParseDuration fracNanos d1 with
    | none => exact ⟨_, rfl⟩
    | some d => rw [hp] at hm; cases hm

theorem iterateFields_returns {σ : Type} (body : StructField → Str → Str → Bool → σ → Outcome σ)
    (fs : List StructField)
    (h : ∀ f ∈ fs, ∀ s, ∃ r, body f (fieldMeta f).1 (fieldMeta f).2.1 (fieldMeta f).2.2 s = .ret r)
    (s : σ) : ∃ r, iterateFields body fs s = .ret r := by
  induction fs generalizing s with
  | nil => exact ⟨s, rfl⟩
  | cons g rest ih =>
    obtain ⟨r, hr⟩ := h g (List.mem_cons_self _ _) s
    rw [iterateFields_cons, hr]
    exact ih (fun f hf => h f (List.mem_cons_of_mem _ hf)) r

theorem defaultValueBody_string (fracNanos : Nat → Nat → Nat → Nat) (field : StructField)
    (d1 d2 : Str) (b : Bool) (value : Instance) (hk : field.Typ.Kind = .String)
    (he : IsExported field.Name = true) :
    ∃ r, defaultValueBody fracNanos field d1 d2 b value = .ret r := by
  unfold defaultValueBody setField
  by_cases hd : d1 = []
  · exact ⟨value, by simp [hd]⟩
  · exact ⟨storeField value field.Name (.str d1), by simp [hd, hk, he]⟩

theorem defaultValueBody_string_panic (fracNanos : Nat → Nat → Nat → Nat) (field : StructField)
    (d1 d2 : Str) (b : Bool) (value : Instance) (hk : field.Typ.Kind = .String)
    (p : PanicValue) (h : defaultValueBody fracNanos field d1 d2 b value = .panic p) :
    p = .unexportedField field.Name := by
  unfold defaultValueBody setField at h
  simp only [hk] at h
  repeat' split at h
  all_goals cases h
  rfl

/-- C9, with the condition the code needs: for every settings structure with
a signed-integer, unsigned-integer or duration field whose non-empty default
literal does not parse (not a base-10 number, out of the 64-bit range, or not
a duration literal), `DefaultValue` and `Read` panic and return no instance;
an exported text field never makes the loop of `defaultValue` panic, whatever
its default literal, and a structure of exported text fields always has a
default instance.  The one panic a text field can cause is that of `SetString`
on an unexported field; its literal is never parsed. -/
theorem malformed_default_panics (fracNanos : Nat → Nat → Nat → Nat) (reader : ConfigReader)
    (field : StructField) (hf : field ∈ reader.ConfigT) (hd : (fieldMeta field).1 ≠ [])
    (hm : malformedDefault fracNanos field.Typ (fieldMeta field).1 = true) :
    (∃ p, DefaultValue fracNanos reader = .panic p)
    ∧ (∀ (f : FlagSet) (env : Str → Option Str) (args : List Str),
        ∃ p, Read fracNanos reader f env args = .panic p)
    ∧ (∀ (text : StructField) (d desc : Str) (secret : Bool) (value : Instance),
        text.Typ.Kind = .String →
        (IsExported text.Name = true →
          ∃ r, defaultValueBody fracNanos text d desc secret value = .ret r)
        ∧ ∀ p, defaultValueBody fracNanos text d desc secret value = .panic p →
            p = .unexportedField text.Name)
    ∧ (∀ texts : ConfigReader,
        (∀ g ∈ texts.ConfigT, g.Typ.Kind = .String ∧ IsExported g.Name = true) →
        ∃ inst, DefaultValue fracNanos texts = .ret inst) := by
  have hp : ∃ p, defaultValue fracNanos reader = .panic p :=
    iterateFields_panics (defaultValueBody fracNanos) (defaultValueBody_no_exit fracNanos)
      reader.ConfigT field hf
      (fun s => defaultValueBody_malformed fracNanos field _ _ _ s hd hm) (newConfig reader)
  refine ⟨hp, ?_, ?_, ?_⟩
  · intro f env args
    obtain ⟨p, h⟩ := hp
    exact ⟨p, Read_panics_of_defaultValue _ _ _ _ _ _ h⟩
  · intro text d desc secret value hk
    exact ⟨fun he => defaultValueBody_string fracNanos text d desc secret value hk he,
      fun p h => defaultValueBody_string_panic fracNanos text d desc secret value hk p h⟩
  · intro texts ht
    exact iterateFields_returns (defaultValueBody fracNanos) texts.ConfigT
      (fun g hg s => defaultValueBody_string fracNanos g _ _ _ s (ht g hg).1 (ht g hg).2)
      (newConfig texts)

/-- C9, at a structure with a signed-integer field whose default literal
`0x10` is not a base-10 number: `DefaultValue` and `Read` panic.  So do the
out-of-range literal `9223372036854775808` and the duration literal
`notaduration`. -/
theorem malformed_default_panics_witness :
    (∃ p, DefaultValue (fun _ _ _ => 0)
        ⟨[⟨"Retries".toList, .int, some "0x10".toList, none⟩], []⟩ = .panic p)
    ∧ (∃ p, Read (fun _ _ _ => 0) ⟨[⟨"Retries".toList, .int, some "0x10".toList, none⟩], []⟩
        (NewFlagSet .ContinueOnError) (fun _ => none) [] = .panic p)
    ∧ malformedDefault (fun _ _ _ => 0) .int64 "9223372036854775808".toList = true
    ∧ malformedDefault (fun _ _ _ => 0) .duration "notaduration".toList = true :=
  have h := malformed_default_panics (fun _ _ _ => 0)
    ⟨[⟨"Retries".toList, .int, some "0x10".toList, none⟩], []⟩
    ⟨"Retries".toList, .int, some "0x10".toList, none⟩ (by decide) (by decide) (by decide)
  ⟨h.1, h.2.1 _ _ _, by decide, by decide⟩

/-- C9 as stated fails for an unexported text field: at
`struct{ port string }` with the default literal `8080`, `SetString` panics
and `DefaultValue` and `Read` return no instance, although the literal needs
no parsing.  With an exported field of the same literal both return. -/
theorem malformed_default_counterexample :
    (⟨"port".toList, .string, some "8080".toList, none⟩ : StructField).Typ.Kind = .String
    ∧ DefaultValue (fun _ _ _ => 0)
        ⟨[⟨"port".toList, .string, some "8080".toList, none⟩], []⟩
      = .panic (.unexportedField "port".toList)
    ∧ Read (fun _ _ _ => 0) ⟨[⟨"port".toList, .string, some "8080".toList, none⟩], []⟩
        (NewFlagSet .ContinueOnError) (fun _ => none) []
      = .panic (.unexportedField "port".toList)
    ∧ DefaultValue (fun _ _ _ => 0)
        ⟨[⟨"Port".toList, .string, some "8080".toList, none⟩], []⟩
      = .ret [("Port".toList, .str "8080".toList)] := by
  decide

/-! ### Errors of the command line and of the environment -/

/-- C2 fails on the code.  With a flag set that hands parse errors back
(`ContinueOnError`), the malformed value `--grace-period=notaduration` makes
`readConfig` return the zero `reflect.Value` with the error, and `Read` then
panics in `c.Interface()` instead of returning the error; the same happens for
an unrecognised flag. -/
theorem Read_parse_error_panics (fracNanos : Nat → Nat → Nat → Nat) :
    readConfig fracNanos configReader (NewFlagSet .ContinueOnError) (fun _ => none)
        ["--grace-period=notaduration".toList]
      = .ret (none, some (.invalidValue "notaduration".toList "grace-period".toList))
    ∧ Read fracNanos configReader (NewFlagSet .ContinueOnError) (fun _ => none)
        ["--grace-period=notaduration".toList] = .panic .invalidValue
    ∧ readConfig fracNanos configReader (NewFlagSet .ContinueOnError) (fun _ => none)
        ["--no-such-flag=1".toList]
      = .ret (none, some (.notDefined "no-such-flag".toList))
    ∧ Read fracNanos configReader (NewFlagSet .ContinueOnError) (fun _ => none)
        ["--no-such-flag=1".toList] = .panic .invalidValue :=
  ⟨rfl, rfl, rfl, rfl⟩

/-- C3 fails on the code.  With `TEXT_LOGGING=notabool` and
`GRACE_PERIOD=notaduration` in the environment and no arguments, `Read`
returns an instance and no error: the errors of `f.Value.Set` are dropped, and
the two fields are left at the values the failed parses wrote, `false` and
`0`. -/
theorem Read_env_error_dropped (fracNanos : Nat → Nat → Nat → Nat) :
    Read fracNanos configReader (NewFlagSet .ContinueOnError)
        (fun k => if k = "TEXT_LOGGING".toList then some "notabool".toList
          else if k = "GRACE_PERIOD".toList then some "notaduration".toList else none) []
      = .ret ([("Host".toList, .str "localhost".toList), ("Port".toList, .str "8080".toList),
          ("LogLevel".toList, .str "error".toList), ("TextLogging".toList, .bool false),
          ("GracePeriod".toList, .int 0), ("APIKey".toList, .str []),
          ("APISecret".toList, .str [])], none)
    ∧ ParseBool "notabool".toList = none
    ∧ ParseDuration fracNanos "notaduration".toList = none :=
  ⟨rfl, rfl, rfl⟩

/-! ### The default pass -/

theorem defaultValueBody_eq (fracNanos : Nat → Nat → Nat → Nat) (f : StructField)
    (d2 : Str) (b : Bool) (s : Instance) (hs : supported f.Typ = true)
    (he : IsExported f.Name = true)
    (hm : malformedDefault fracNanos f.Typ (fieldMeta f).1 = false) :
    defaultValueBody fracNanos f (fieldMeta f).1 d2 b s
      = .ret (writeField s (defaultWrite fracNanos f)) := by
  unfold defaultValueBody writeField defaultWrite setField
  by_cases hd : (fieldMeta f).1 = []
  · simp [hd]
  · simp only [hd, if_false, he, if_true]
    cases ht : f.Typ with
    | string => rfl
    | bool => rfl
    | named k =>
      rw [ht] at hs
      cases hs
    | int =>
      rw [ht] at hm
      simp only [malformedDefault] at hm
      simp only [GoType.Kind, coerceDefault]
      generalize ParseInt (fieldMeta f).1 10 64 = r at hm ⊢
      rcases r with ⟨i, _ | e⟩
      · simp
      · simp at hm
    | int64 =>
      rw [ht] at hm
      simp only [malformedDefault] at hm
      simp only [GoType.Kind, coerceDefault]
      generalize ParseInt (fieldMeta f).1 10 64 = r at hm ⊢
      rcases r with ⟨i, _ | e⟩
      · simp
      · simp at hm
    | uint64 =>
      rw [ht] at hm
      simp only [malformedDefault] at hm
      simp only [GoType.Kind, coerceDefault]
      generalize ParseUint (fieldMeta f).1 10 64 = r at hm ⊢
      rcases r with ⟨i, _ | e⟩
      · simp
      · simp at hm
    | duration =>
      rw [ht] at hm
      simp only [malformedDefault] at hm
      simp only [GoType.Kind, coerceDefault]
      generalize ParseDuration fracNanos (fieldMeta f).1 = r at hm ⊢
      rcases r with _ | d
      · simp at hm
      · simp
    | uint =>
      rw [ht] at hs
      exact absurd hs (by decide)
    | uint8 =>
      rw [ht] at hs
      exact absurd hs (by decide)
    | uint16 =>
      rw [ht] at hs
      exact absurd hs (by decide)
    | uint32 =>
      rw [ht] at hs
      exact absurd hs (by decide)
    | other =>
      rw [ht] at hs
      exact absurd hs (by decide)

theorem iterateFields_defaultValue (fracNanos : Nat → Nat → Nat → Nat)
    (fs : List StructField) (s : Instance)
    (hs : ∀ f ∈ fs, supported f.Typ = true)
    (he : ∀ f ∈ fs, IsExported f.Name = true)
    (hm : ∀ f ∈ fs, malformedDefault fracNanos f.Typ (fieldMeta f).1 = false) :
    iterateFields (defaultValueBody fracNanos) fs s
      = .ret ((fs.map (defaultWrite fracNanos)).foldl writeField s) := by
  induction fs generalizing s with
  | nil => rfl
  | cons f rest ih =>
    rw [iterateFields_cons, defaultValueBody_eq _ _ _ _ _ (hs f (List.mem_cons_self _ _))
      (he f (List.mem_cons_self _ _)) (hm f (List.mem_cons_self _ _))]
    exact ih _ (fun g hg => hs g (List.mem_cons_of_mem _ hg))
      (fun g hg => he g (List.mem_cons_of_mem _ hg))
      (fun g hg => hm g (List.mem_cons_of_mem _ hg))

/-- The instance of the default pass. -/
theorem FieldByName_defaults (fracNanos : Nat → Nat → Nat → Nat) (fs : List StructField)
    (field : StructField) (hnd : (fs.map (fun f => f.Name)).Nodup) (hf : field ∈ fs) :
    FieldByName ((fs.map (defaultWrite fracNanos)).foldl writeField
        (fs.map fun f => (f.Name, zeroValue f.Typ))) field.Name
      = some (defaultOf fracNanos field) := by
  have hzero := FieldByName_zeroes fs field hnd hf
  have hws : ((fs.map (defaultWrite fracNanos)).map Prod.fst).Nodup := by
    simpa [List.map_map, Function.comp, defaultWrite] using hnd
  unfold defaultOf
  by_cases hd : (fieldMeta field).1 = []
  · rw [if_pos hd, FieldByName_foldl_untouched, hzero]
    intro x hx
    obtain ⟨g, hg, hgx⟩ := List.mem_map.mp hx
    simp only [defaultWrite, Prod.mk.injEq] at hgx
    have hgf : g = field := List.inj_on_of_nodup_map hnd hg hf hgx.1
    rw [hgf, if_pos hd] at hgx
    exact Option.noConfusion hgx.2
  · rw [if_neg hd]
    have hw : (field.Name, some (coerceDefault fracNanos field.Typ (fieldMeta field).1))
        ∈ fs.map (defaultWrite fracNanos) :=
      List.mem_map.mpr ⟨field, hf, by simp [defaultWrite, hd]⟩
    rw [FieldByName_foldl_set _ _ _ _ hws hw, hzero]
    rfl

/-! ### The binding pass -/

theorem identChar_toLower {c : Char} (h : (c.isAlphanum || c == '_') = true) :
    c.toLower ≠ '-' ∧ c.toLower ≠ '=' ∧ c ≠ '\n' := by
  rw [Bool.or_eq_true, isAlphanum_iff, isUpper_iff, isLower_iff, isDigit_iff, beq_iff_eq,
    char_eq_iff] at h
  have h1 : Char.toNat '_' = 95 := by decide
  have h2 : Char.toNat '-' = 45 := by decide
  have h3 : Char.toNat '=' = 61 := by decide
  have h4 : Char.toNat '\n' = 10 := by decide
  rw [h1] at h
  refine ⟨?_, ?_, ?_⟩
  · rw [Ne, char_eq_iff, toLower_toNat, h2]; split <;> omega
  · rw [Ne, char_eq_iff, toLower_toNat, h3]; split <;> omega
  · rw [Ne, char_eq_iff, h4]; omega

/-- The flag name of an identifier can be registered and parsed: it is not
empty, does not start with `-` or `=` and holds no `=`. -/
theorem toArgName_valid (s : Str) (hs : isIdentifier s = true) :
    (∃ c cs, toArgName s = c :: cs ∧ c ≠ '-' ∧ c ≠ '=') ∧ '=' ∉ toArgName s := by
  simp only [isIdentifier, Bool.and_eq_true, Bool.not_eq_true', List.all_eq_true] at hs
  obtain ⟨hne, hall⟩ := hs
  have hk := toArgName_eq_kebabFrom s (fun c hc => (identChar_toLower (hall c hc)).2.2)
  rw [hk]
  constructor
  · cases s with
    | nil => simp at hne
    | cons c cs =>
      have hc := identChar_toLower (hall c (List.mem_cons_self _ _))
      exact ⟨c.toLower, kebabFrom (some c) cs, by simp [kebabFrom], hc.1, hc.2.1⟩
  · intro hmem
    rcases mem_kebabFrom none s '=' hmem with h | ⟨c, hc, h⟩
    · exact absurd h (by decide)
    · exact (identChar_toLower (hall c hc)).2.1 h.symm

theorem lookup_eq_none (f : FlagSet) (name : Str)
    (h : name ∉ f.formal.map (fun fl => fl.Name)) : f.lookup name = none := by
  unfold FlagSet.lookup
  rw [List.find?_eq_none]
  intro fl hfl
  simp only [decide_eq_true_eq]
  intro hname
  exact h (List.mem_map.mpr ⟨fl, hfl, hname⟩)

theorem Var_flagFor (flags : FlagSet) (field : StructField)
    (hid : isIdentifier field.Name = true)
    (hnew : toArgName field.Name ∉ flags.formal.map (fun fl => fl.Name)) :
    flags.Var (flagFor field)
      = .ret { flags with formal := flags.formal ++ [flagFor field] } := by
  obtain ⟨⟨c, cs, hcs, hc1, _⟩, heq⟩ := toArgName_valid field.Name hid
  unfold FlagSet.Var
  have hname : (flagFor field).Name = toArgName field.Name := rfl
  have hhead : ¬ (toArgName field.Name).head? = some '-' := by
    rw [hcs]
    intro h
    exact hc1 (Option.some.inj h)
  rw [hname, lookup_eq_none flags _ hnew, if_neg hhead, if_neg heq]
  rfl

theorem configureFlagSetBody_eq (field : StructField) (d1 : Str) (b : Bool) (flags : FlagSet)
    (hs : supported field.Typ = true) (he : IsExported field.Name = true) :
    configureFlagSetBody field d1 (fieldMeta field).2.1 b flags = flags.Var (flagFor field) := by
  unfold configureFlagSetBody flagFor addrInterface
  simp only [he, if_true]
  cases ht : field.Typ <;> rw [ht] at hs <;> first
    | rfl
    | cases hs

theorem iterateFields_configure (fs : List StructField) (flags : FlagSet)
    (hs : ∀ f ∈ fs, supported f.Typ = true) (hid : ∀ f ∈ fs, isIdentifier f.Name = true)
    (he : ∀ f ∈ fs, IsExported f.Name = true)
    (hnd : (flags.formal.map (fun fl => fl.Name) ++ fs.map (fun f => toArgName f.Name)).Nodup) :
    iterateFields configureFlagSetBody fs flags
      = .ret { flags with formal := flags.formal ++ fs.map flagFor } := by
  induction fs generalizing flags with
  | nil => simp [iterateFields]
  | cons f rest ih =>
    have hnew : toArgName f.Name ∉ flags.formal.map (fun fl => fl.Name) := by
      intro hmem
      rw [List.map_cons, List.nodup_append] at hnd
      exact hnd.2.2 hmem (List.mem_cons_self _ _)
    rw [iterateFields_cons, configureFlagSetBody_eq _ _ _ _ (hs f (List.mem_cons_self _ _))
      (he f (List.mem_cons_self _ _)),
      Var_flagFor _ _ (hid f (List.mem_cons_self _ _)) hnew]
    simp only [Outcome.bind]
    rw [ih _ (fun g hg => hs g (List.mem_cons_of_mem _ hg))
      (fun g hg => hid g (List.mem_cons_of_mem _ hg))
      (fun g hg => he g (List.mem_cons_of_mem _ hg))]
    · simp
    · simpa [flagFor] using hnd

/-! ### The environment pass -/

theorem applyEnv_eq (fracNanos : Nat → Nat → Nat → Nat) (reader : ConfigReader)
    (env : Str → Option Str) (fl : Flag) (c : Instance) :
    applyEnv fracNanos reader env fl c = writeField c (envWrite fracNanos reader env fl) := by
  unfold applyEnv writeField envWrite selectedEnv Flag.Set
  cases h1 : env (envNameWithPrefix reader fl.Name) with
  | some v => rfl
  | none =>
    cases h2 : env (envName fl.Name) with
    | some v => rfl
    | none => rfl

theorem VisitAll_applyEnv (fracNanos : Nat → Nat → Nat → Nat) (reader : ConfigReader)
    (env : Str → Option Str) (f : FlagSet) (c : Instance) :
    f.VisitAll (applyEnv fracNanos reader env) c
      = ((sortFlags f.formal).map (envWrite fracNanos reader env)).foldl writeField c := by
  unfold FlagSet.VisitAll
  rw [List.foldl_map]
  congr 1
  funext s fl
  exact applyEnv_eq fracNanos reader env fl s

theorem sortFlags_perm (formal : List Flag) : (sortFlags formal).Perm formal :=
  List.perm_insertionSort _ _

/-- After the environment pass a field holds the parsed value of the
environment variable selected for it, or what it held before. -/
theorem FieldByName_VisitAll (fracNanos : Nat → Nat → Nat → Nat) (reader : ConfigReader)
    (env : Str → Option Str) (eh : ErrorHandling) (fs : List StructField) (c : Instance)
    (field : StructField) (hnd : (fs.map (fun f => f.Name)).Nodup) (hf : field ∈ fs) :
    FieldByName ((FlagSet.mk eh (fs.map flagFor)).VisitAll (applyEnv fracNanos reader env) c)
        field.Name
      = match selectedEnv reader env (toArgName field.Name) with
        | some v => (FieldByName c field.Name).map
            (fun _ => ((valueFor field.Typ).parse fracNanos v).1)
        | none => FieldByName c field.Name := by
  rw [VisitAll_applyEnv]
  have hperm := sortFlags_perm (fs.map flagFor)
  have hmemf : flagFor field ∈ sortFlags (fs.map flagFor) :=
    hperm.mem_iff.mpr (List.mem_map.mpr ⟨field, hf, rfl⟩)
  have hws : (((sortFlags (fs.map flagFor)).map (envWrite fracNanos reader env)).map
      Prod.fst).Nodup := by
    have h1 : ((sortFlags (fs.map flagFor)).map (envWrite fracNanos reader env)).map Prod.fst
        = (sortFlags (fs.map flagFor)).map (fun fl => fl.cell) := by
      simp [List.map_map, Function.comp, envWrite]
    rw [h1]
    have h2 : ((sortFlags (fs.map flagFor)).map (fun fl => fl.cell)).Perm
        ((fs.map flagFor).map (fun fl => fl.cell)) := hperm.map _
    rw [h2.nodup_iff]
    simpa [List.map_map, Function.comp, flagFor] using hnd
  cases hsel : selectedEnv reader env (toArgName field.Name) with
  | some v =>
    have hw : (field.Name, some ((valueFor field.Typ).parse fracNanos v).1)
        ∈ (sortFlags (fs.map flagFor)).map (envWrite fracNanos reader env) :=
      List.mem_map.mpr ⟨flagFor field, hmemf, by simp [envWrite, flagFor, hsel]⟩
    simp only
    rw [FieldByName_foldl_set _ _ _ _ hws hw]
  | none =>
    simp only
    apply FieldByName_foldl_untouched
    intro x hx
    obtain ⟨fl, hfl, hflx⟩ := List.mem_map.mp hx
    obtain ⟨g, hg, rfl⟩ := List.mem_map.mp (hperm.mem_iff.mp hfl)
    simp only [envWrite, flagFor, Prod.mk.injEq] at hflx
    have hgf : g = field := List.inj_on_of_nodup_map hnd hg hf hflx.1
    rw [hgf, hsel] at hflx
    exact Option.noConfusion hflx.2

theorem map_fst_VisitAll (fracNanos : Nat → Nat → Nat → Nat) (reader : ConfigReader)
    (env : Str → Option Str) (f : FlagSet) (c : Instance) :
    (f.VisitAll (applyEnv fracNanos reader env) c).map Prod.fst = c.map Prod.fst := by
  rw [VisitAll_applyEnv, map_fst_foldl_writeField]

/-- When no selected environment variable is set, the environment pass leaves
the instance as it is. -/
theorem VisitAll_no_env (fracNanos : Nat → Nat → Nat → Nat) (reader : ConfigReader)
    (env : Str → Option Str) (eh : ErrorHandling) (fs : List StructField) (c : Instance)
    (hnone : ∀ f ∈ fs, selectedEnv reader env (toArgName f.Name) = none) :
    (FlagSet.mk eh (fs.map flagFor)).VisitAll (applyEnv fracNanos reader env) c = c := by
  rw [VisitAll_applyEnv]
  have hperm := sortFlags_perm (fs.map flagFor)
  have hall : ∀ fl ∈ sortFlags (fs.map flagFor),
      (envWrite fracNanos reader env fl).2 = none := by
    intro fl hfl
    obtain ⟨g, hg, rfl⟩ := List.mem_map.mp (hperm.mem_iff.mp hfl)
    simp [envWrite, flagFor, hnone g hg]
  generalize sortFlags (fs.map flagFor) = l at hall
  induction l generalizing c with
  | nil => rfl
  | cons fl rest ih =>
    rw [List.map_cons, List.foldl_cons]
    have h1 : writeField c (envWrite fracNanos reader env fl) = c := by
      unfold writeField
      rw [hall fl (List.mem_cons_self _ _)]
    rw [h1]
    exact ih c (fun g hg => hall g (List.mem_cons_of_mem _ hg))

/-! ### The command-line pass -/

theorem dropWhile_ne_equals (cs v : Str) (h : '=' ∉ cs) :
    (cs ++ '=' :: v).dropWhile (fun x => x != '=') = '=' :: v
    ∧ (cs ++ '=' :: v).takeWhile (fun x => x != '=') = cs := by
  induction cs with
  | nil => simp [List.dropWhile, List.takeWhile]
  | cons c rest ih =>
    have hc : (c != '=') = true := by
      simp only [bne_iff_ne, ne_eq]
      intro hc
      exact h (by rw [hc]; exact List.mem_cons_self _ _)
    have hrest := ih (fun hm => h (List.mem_cons_of_mem _ hm))
    simp [List.dropWhile, List.takeWhile, hc, hrest.1, hrest.2]

theorem cutValue_token (c : Char) (cs v : Str) (h : '=' ∉ cs) :
    cutValue (c :: cs ++ '=' :: v) = (c :: cs, some v) := by
  have hd := dropWhile_ne_equals cs v h
  simp only [cutValue, List.cons_append, hd.1, hd.2]

/-- `parseOne` at an argument `--name=value` whose flag is defined and whose
value parses: the flag is seen and its cell is written. -/
theorem parseOne_token (fracNanos : Nat → Nat → Nat → Nat) (f : FlagSet) (name v : Str)
    (rest : List Str) (config : Instance) (fl : Flag)
    (hname : (∃ c cs, name = c :: cs ∧ c ≠ '-' ∧ c ≠ '=') ∧ '=' ∉ name)
    (hl : f.lookup name = some fl) (hv : (fl.Value.parse fracNanos v).2 = false) :
    f.parseOne fracNanos (flagToken (name, v) :: rest) config
      = (true, none, rest, storeField config fl.cell (fl.Value.parse fracNanos v).1) := by
  obtain ⟨⟨c, cs, rfl, hc1, hc2⟩, heq⟩ := hname
  have hcs : '=' ∉ cs := fun h => heq (List.mem_cons_of_mem _ h)
  have hcut := cutValue_token c cs v hcs
  have hset : fl.Set fracNanos v config
      = (storeField config fl.cell (fl.Value.parse fracNanos v).1, false) := by
    unfold Flag.Set
    rw [← hv]
  simp only [FlagSet.parseOne, flagToken, List.cons_append] at hcut ⊢
  simp only [true_and, List.cons_ne_nil, if_false, if_true, List.head?_cons,
    Option.some.injEq, hc1, hc2, or_self, hcut, hl, hset]
  split <;> rfl

theorem lookup_flagFor (eh : ErrorHandling) (fs : List StructField) (field : StructField)
    (hnd : (fs.map (fun f => toArgName f.Name)).Nodup) (hf : field ∈ fs) :
    (FlagSet.mk eh (fs.map flagFor)).lookup (toArgName field.Name) = some (flagFor field) := by
  unfold FlagSet.lookup
  simp only
  induction fs with
  | nil => simp at hf
  | cons g rest ih =>
    rw [List.map_cons, List.nodup_cons] at hnd
    rcases List.mem_cons.mp hf with h | h
    · subst h
      simp [List.find?, flagFor]
    · have hne : ¬ toArgName g.Name = toArgName field.Name := by
        intro hg
        exact hnd.1 (List.mem_map.mpr ⟨field, h, hg.symm⟩)
      have hne2 : (flagFor g).Name ≠ toArgName field.Name := hne
      simp only [List.map_cons, List.find?, hne2, decide_False]
      exact ih hnd.2 h

/-- The loop of `Parse` over arguments `--name=value` whose flags are defined
and whose values parse: no error, and every field holds the parsed value of
the last argument with its flag name, or what it held before. -/
theorem parseLoop_tokens (fracNanos : Nat → Nat → Nat → Nat) (eh : ErrorHandling)
    (fs : List StructField) (args : List (Str × Str)) (c : Instance) (fuel : Nat)
    (hfuel : args.length < fuel)
    (hid : ∀ f ∈ fs, isIdentifier f.Name = true)
    (hnd : (fs.map (fun f => toArgName f.Name)).Nodup)
    (hargs : ∀ a ∈ args, ∃ f ∈ fs, a.1 = toArgName f.Name
      ∧ ((valueFor f.Typ).parse fracNanos a.2).2 = false) :
    ∃ c1, (FlagSet.mk eh (fs.map flagFor)).parseLoop fracNanos fuel (args.map flagToken) c
        = (none, c1)
      ∧ c1.map Prod.fst = c.map Prod.fst
      ∧ ∀ field ∈ fs, FieldByName c1 field.Name
          = match cliValue args (toArgName field.Name) with
            | some v => (FieldByName c field.Name).map
                (fun _ => ((valueFor field.Typ).parse fracNanos v).1)
            | none => FieldByName c field.Name := by
  induction args generalizing c fuel with
  | nil =>
    obtain ⟨n, rfl⟩ : ∃ n, fuel = n + 1 := ⟨fuel - 1, by simp at hfuel; omega⟩
    exact ⟨c, rfl, rfl, fun field _ => rfl⟩
  | cons a rest ih =>
    obtain ⟨n, rfl⟩ : ∃ n, fuel = n + 1 := ⟨fuel - 1, by simp at hfuel; omega⟩
    obtain ⟨f, hf, haf, hpf⟩ := hargs a (List.mem_cons_self _ _)
    have hone := parseOne_token fracNanos (FlagSet.mk eh (fs.map flagFor)) a.1 a.2
      (rest.map flagToken) c (flagFor f)
      (by rw [haf]; exact toArgName_valid f.Name (hid f hf))
      (by rw [haf]; exact lookup_flagFor eh fs f hnd hf) hpf
    obtain ⟨c1, hloop, hnames, hfields⟩ := ih
      (storeField c (flagFor f).cell ((flagFor f).Value.parse fracNanos a.2).1) n
      (by simp at hfuel ⊢; omega)
      (fun b hb => hargs b (List.mem_cons_of_mem _ hb))
    refine ⟨c1, ?_, ?_, ?_⟩
    · rw [List.map_cons, FlagSet.parseLoop]
      have hpair : flagToken a = flagToken (a.1, a.2) := rfl
      rw [hpair, hone]
      exact hloop
    · rw [hnames, map_fst_storeField]
    · intro field hfield
      rw [hfields field hfield, FieldByName_storeField]
      have hiff : (flagFor f).cell = field.Name ↔ a.1 = toArgName field.Name := by
        constructor
        · intro h
          have h2 : f.Name = field.Name := h
          rw [haf, h2]
        · intro h
          rw [haf] at h
          have h2 : f = field := List.inj_on_of_nodup_map hnd hf hfield h
          rw [h2]
          rfl
      simp only [cliValue]
      cases hcli : cliValue rest (toArgName field.Name) with
      | some v =>
        simp only
        by_cases h : (flagFor f).cell = field.Name
        · rw [if_pos h, Option.map_map]
          rfl
        · rw [if_neg h]
      | none =>
        simp only
        by_cases h : (flagFor f).cell = field.Name
        · have h3 : f = field := by
            have h4 := hiff.mp h
            rw [haf] at h4
            exact List.inj_on_of_nodup_map hnd hf hfield h4
          rw [if_pos h, if_pos (hiff.mp h)]
          simp only
          rw [← h3]
          rfl
        · have h5 : ¬ a.1 = toArgName field.Name := fun h6 => h (hiff.mpr h6)
          rw [if_neg h, if_neg h5]

/-! ### `Read` -/

theorem nodup_names_of_argNames (fs : List StructField)
    (hnd : (fs.map (fun f => toArgName f.Name)).Nodup) : (fs.map (fun f => f.Name)).Nodup := by
  have h : fs.map (fun f => toArgName f.Name) = (fs.map (fun f => f.Name)).map toArgName := by
    simp [List.map_map, Function.comp]
  rw [h] at hnd
  exact List.Nodup.of_map _ hnd

/-- The three passes of `readConfig` on a structure of exported fields of
supported types with well-formed defaults and distinct flag names, for
arguments `--name=value` whose flags are defined and whose values parse. -/
theorem Read_tokens (fracNanos : Nat → Nat → Nat → Nat) (reader : ConfigReader)
    (eh : ErrorHandling) (env : Str → Option Str) (args : List (Str × Str))
    (hid : ∀ f ∈ reader.ConfigT, isIdentifier f.Name = true)
    (he : ∀ f ∈ reader.ConfigT, IsExported f.Name = true)
    (hs : ∀ f ∈ reader.ConfigT, supported f.Typ = true)
    (hnd : (reader.ConfigT.map (fun f => toArgName f.Name)).Nodup)
    (hm : ∀ f ∈ reader.ConfigT, malformedDefault fracNanos f.Typ (fieldMeta f).1 = false)
    (hargs : ∀ a ∈ args, ∃ f ∈ reader.ConfigT, a.1 = toArgName f.Name
      ∧ ((valueFor f.Typ).parse fracNanos a.2).2 = false) :
    ∃ inst, Read fracNanos reader (NewFlagSet eh) env (args.map flagToken) = .ret (inst, none)
      ∧ inst.map Prod.fst = reader.ConfigT.map (fun f => f.Name)
      ∧ ∀ field ∈ reader.ConfigT, FieldByName inst field.Name
          = some (match cliValue args (toArgName field.Name) with
            | some v => ((valueFor field.Typ).parse fracNanos v).1
            | none =>
              match selectedEnv reader env (toArgName field.Name) with
              | some v => ((valueFor field.Typ).parse fracNanos v).1
              | none => defaultOf fracNanos field) := by
  have hnames := nodup_names_of_argNames reader.ConfigT hnd
  have hdef := iterateFields_defaultValue fracNanos reader.ConfigT (newConfig reader) hs he hm
  have hconf := iterateFields_configure reader.ConfigT (NewFlagSet eh) hs hid he
    (by simpa [NewFlagSet] using hnd)
  obtain ⟨c2, hloop, hn2, hfields⟩ := parseLoop_tokens fracNanos eh reader.ConfigT args
    ((FlagSet.mk eh (reader.ConfigT.map flagFor)).VisitAll (applyEnv fracNanos reader env)
      ((reader.ConfigT.map (defaultWrite fracNanos)).foldl writeField (newConfig reader)))
    ((args.map flagToken).length + 1) (by simp) hid hnd hargs
  refine ⟨c2, ?_, ?_, ?_⟩
  · unfold Read readConfig defaultValue configureFlagSet
    rw [hdef, hconf]
    simp only [Outcome.bind, NewFlagSet, List.nil_append, FlagSet.Parse, hloop, Interface]
  · rw [hn2, map_fst_VisitAll, map_fst_foldl_writeField, map_fst_newConfig]
  · intro field hfield
    rw [hfields field hfield, FieldByName_VisitAll fracNanos reader env eh reader.ConfigT _ field
      hnames hfield]
    have hd : FieldByName ((reader.ConfigT.map (defaultWrite fracNanos)).foldl writeField
        (newConfig reader)) field.Name = some (defaultOf fracNanos field) :=
      FieldByName_defaults fracNanos reader.ConfigT field hnames hfield
    rw [hd]
    cases cliValue args (toArgName field.Name) <;>
      cases selectedEnv reader env (toArgName field.Name) <;> rfl

/-- C1, with the conditions the code needs: for every settings structure of
exported fields of supported types (the predeclared types and
`time.Duration`, no other defined type) whose fields have pairwise distinct
flag names, every environment, every prefix and every argument list of
recognised tokens `--name=value`, where every supplied text is well-formed for
its field's kind, `Read` succeeds and every field holds the parsed
command-line value if its flag is supplied; else the parsed value of the
prefixed environment variable if set; else that of the unprefixed one if set;
else the coerced default literal if not empty; else the zero value of its
kind. -/
theorem Read_precedence (fracNanos : Nat → Nat → Nat → Nat) (reader : ConfigReader)
    (eh : ErrorHandling) (env : Str → Option Str) (args : List (Str × Str))
    (hid : ∀ f ∈ reader.ConfigT, isIdentifier f.Name = true)
    (he : ∀ f ∈ reader.ConfigT, IsExported f.Name = true)
    (hs : ∀ f ∈ reader.ConfigT, supported f.Typ = true)
    (hnd : (reader.ConfigT.map (fun f => toArgName f.Name)).Nodup)
    (hm : ∀ f ∈ reader.ConfigT, malformedDefault fracNanos f.Typ (fieldMeta f).1 = false)
    (henv : ∀ f ∈ reader.ConfigT, ∀ v, selectedEnv reader env (toArgName f.Name) = some v →
      ((valueFor f.Typ).parse fracNanos v).2 = false)
    (hargs : ∀ a ∈ args, ∃ f ∈ reader.ConfigT, a.1 = toArgName f.Name
      ∧ ((valueFor f.Typ).parse fracNanos a.2).2 = false) :
    ∃ inst, Read fracNanos reader (NewFlagSet eh) env (args.map flagToken) = .ret (inst, none)
      ∧ ∀ field ∈ reader.ConfigT,
          FieldByName inst field.Name = some (resolved fracNanos reader env args field) := by
  -- the environment pass cannot fail, so `henv` only delimits the claim
  have _ := henv
  obtain ⟨inst, hread, _, hfields⟩ :=
    Read_tokens fracNanos reader eh env args hid he hs hnd hm hargs
  refine ⟨inst, hread, ?_⟩
  intro field hfield
  rw [hfields field hfield]
  unfold resolved selectedEnv defaultOf envNameWithPrefix
  cases cliValue args (toArgName field.Name) with
  | some v => rfl
  | none =>
    simp only
    cases env (reader.EnvPrefix ++ envName (toArgName field.Name)) with
    | some v => rfl
    | none => rfl

/-- C1, at a structure with a port and a grace period, the prefix `APP_`, the
environment `APP_PORT=9090`, `PORT=7070`, `GRACE_PERIOD=2m` and the argument
`--port=9999`: the port is 9999 and the grace period two minutes. -/
theorem Read_precedence_witness :
    ∃ inst, Read (fun _ _ _ => 0)
        ⟨[⟨"Port".toList, .string, some "8080".toList, none⟩,
          ⟨"GracePeriod".toList, .duration, some "5s".toList, none⟩], "APP_".toList⟩
        (NewFlagSet .ContinueOnError)
        (fun k => if k = "APP_PORT".toList then some "9090".toList
          else if k = "PORT".toList then some "7070".toList
          else if k = "GRACE_PERIOD".toList then some "2m".toList else none)
        ["--port=9999".toList] = .ret (inst, none)
      ∧ FieldByName inst "Port".toList = some (.str "9999".toList)
      ∧ FieldByName inst "GracePeriod".toList = some (.int 120000000000) := by
  obtain ⟨inst, h1, h2⟩ := Read_precedence (fun _ _ _ => 0)
    ⟨[⟨"Port".toList, .string, some "8080".toList, none⟩,
      ⟨"GracePeriod".toList, .duration, some "5s".toList, none⟩], "APP_".toList⟩
    .ContinueOnError
    (fun k => if k = "APP_PORT".toList then some "9090".toList
      else if k = "PORT".toList then some "7070".toList
      else if k = "GRACE_PERIOD".toList then some "2m".toList else none)
    [("port".toList, "9999".toList)]
    (by decide) (by decide) (by decide) (by decide) (by decide)
    (by
      intro f hf v hv
      simp only [List.mem_cons, List.mem_singleton, List.not_mem_nil, or_false] at hf
      rcases hf with rfl | rfl
      · have h : v = "9090".toList := (Option.some.inj hv).symm
        rw [h]; rfl
      · have h : v = "2m".toList := (Option.some.inj hv).symm
        rw [h]; rfl)
    (by decide)
  exact ⟨inst, h1, h2 ⟨"Port".toList, .string, some "8080".toList, none⟩ (by decide),
    h2 ⟨"GracePeriod".toList, .duration, some "5s".toList, none⟩ (by decide)⟩

/-- C1 as stated fails for a structure whose fields share a flag name:
`APIKey` and `ApiKey` are both `api-key`, the second registration panics in
`flag.Var`, and `Read` does not succeed although every kind is supported and
nothing is malformed.  It fails as well for an unexported text field
(`struct{ port string }` with the argument `--port=1`), where `SetString`
panics, and for a text field of a defined type (`Level` of `type Level
string`), where the assertion `.(*string)` panics. -/
theorem Read_precedence_counterexample :
    supported GoType.string = true
    ∧ toArgName "APIKey".toList = toArgName "ApiKey".toList
    ∧ Read (fun _ _ _ => 0)
        ⟨[⟨"APIKey".toList, .string, none, none⟩, ⟨"ApiKey".toList, .string, none, none⟩], []⟩
        (NewFlagSet .ContinueOnError) (fun _ => none) []
      = .panic (.flagRedefined "api-key".toList)
    ∧ Read (fun _ _ _ => 0) ⟨[⟨"port".toList, .string, some "8080".toList, none⟩], []⟩
        (NewFlagSet .ContinueOnError) (fun _ => none) ["--port=1".toList]
      = .panic (.unexportedField "port".toList)
    ∧ (GoType.named .String).Kind = .String
    ∧ Read (fun _ _ _ => 0) ⟨[⟨"Level".toList, .named .String, some "info".toList, none⟩], []⟩
        (NewFlagSet .ContinueOnError) (fun _ => none) ["--level=debug".toList]
      = .panic .typeAssertion :=
  ⟨by decide, by decide, by decide, by decide, by decide, by decide⟩

/-- C5, with the conditions the code needs: for every settings structure of
exported fields of supported types (the predeclared types and
`time.Duration`, no other defined type) with well-formed default literals
whose fields have pairwise distinct flag names, when no environment variable
of a field is set and the argument list is empty, `Read` succeeds and returns
the instance `DefaultValue` returns: each field holds its coerced default
literal, or the zero value of its kind when the literal is empty.  For the
structure `Config` of the repository this is Host `localhost`, Port `8080`,
LogLevel `error`, TextLogging true, GracePeriod 5000000000 nanoseconds, APIKey
and APISecret empty. -/
theorem Read_defaults (fracNanos : Nat → Nat → Nat → Nat) (reader : ConfigReader)
    (eh : ErrorHandling) (env : Str → Option Str)
    (hid : ∀ f ∈ reader.ConfigT, isIdentifier f.Name = true)
    (he : ∀ f ∈ reader.ConfigT, IsExported f.Name = true)
    (hs : ∀ f ∈ reader.ConfigT, supported f.Typ = true)
    (hnd : (reader.ConfigT.map (fun f => toArgName f.Name)).Nodup)
    (hm : ∀ f ∈ reader.ConfigT, malformedDefault fracNanos f.Typ (fieldMeta f).1 = false)
    (henv : ∀ f ∈ reader.ConfigT, env (envNameWithPrefix reader (toArgName f.Name)) = none
      ∧ env (envName (toArgName f.Name)) = none) :
    (∃ inst, DefaultValue fracNanos reader = .ret inst
      ∧ Read fracNanos reader (NewFlagSet eh) env [] = .ret (inst, none)
      ∧ ∀ field ∈ reader.ConfigT,
          FieldByName inst field.Name = some (defaultOf fracNanos field))
    ∧ DefaultValue fracNanos configReader
        = .ret [("Host".toList, .str "localhost".toList), ("Port".toList, .str "8080".toList),
          ("LogLevel".toList, .str "error".toList), ("TextLogging".toList, .bool true),
          ("GracePeriod".toList, .int 5000000000), ("APIKey".toList, .str []),
          ("APISecret".toList, .str [])]
    ∧ Read fracNanos configReader (NewFlagSet eh) (fun _ => none) []
        = .ret ([("Host".toList, .str "localhost".toList), ("Port".toList, .str "8080".toList),
          ("LogLevel".toList, .str "error".toList), ("TextLogging".toList, .bool true),
          ("GracePeriod".toList, .int 5000000000), ("APIKey".toList, .str []),
          ("APISecret".toList, .str [])], none) := by
  refine ⟨?_, rfl, rfl⟩
  have hnames := nodup_names_of_argNames reader.ConfigT hnd
  have hdef := iterateFields_defaultValue fracNanos reader.ConfigT (newConfig reader) hs he hm
  have hconf := iterateFields_configure reader.ConfigT (NewFlagSet eh) hs hid he
    (by simpa [NewFlagSet] using hnd)
  have hsel : ∀ f ∈ reader.ConfigT, selectedEnv reader env (toArgName f.Name) = none := by
    intro f hf
    unfold selectedEnv
    rw [(henv f hf).1, (henv f hf).2]
  refine ⟨_, hdef, ?_, fun field hfield =>
    FieldByName_defaults fracNanos reader.ConfigT field hnames hfield⟩
  unfold Read readConfig defaultValue configureFlagSet
  rw [hdef, hconf]
  simp only [Outcome.bind, NewFlagSet, List.nil_append]
  rw [VisitAll_no_env fracNanos reader env eh reader.ConfigT _ hsel]
  rfl

/-- C5, at a structure with a retry count and a name, the first with the
default literal `3`, the second without one: `Read` returns the instance of
`DefaultValue`, with the values 3 and the empty text. -/
theorem Read_defaults_witness :
    ∃ inst, DefaultValue (fun _ _ _ => 0)
        ⟨[⟨"Retries".toList, .int, some "3".toList, none⟩,
          ⟨"Name".toList, .string, none, none⟩], []⟩ = .ret inst
      ∧ Read (fun _ _ _ => 0)
        ⟨[⟨"Retries".toList, .int, some "3".toList, none⟩,
          ⟨"Name".toList, .string, none, none⟩], []⟩
        (NewFlagSet .ExitOnError) (fun _ => none) [] = .ret (inst, none)
      ∧ FieldByName inst "Retries".toList = some (.int 3)
      ∧ FieldByName inst "Name".toList = some (.str []) := by
  obtain ⟨⟨inst, h1, h2, h3⟩, _⟩ := Read_defaults (fun _ _ _ => 0)
    ⟨[⟨"Retries".toList, .int, some "3".toList, none⟩,
      ⟨"Name".toList, .string, none, none⟩], []⟩
    .ExitOnError (fun _ => none) (by decide) (by decide) (by decide) (by decide) (by decide)
    (fun _ _ => ⟨rfl, rfl⟩)
  exact ⟨inst, h1, h2, h3 ⟨"Retries".toList, .int, some "3".toList, none⟩ (by decide),
    h3 ⟨"Name".toList, .string, none, none⟩ (by decide)⟩

/-- C5 as stated fails for a structure whose fields share a flag name:
`HTTPPort` and `HttpPort` are both `http-port`; `DefaultValue` returns the
default instance, but `Read` panics at the second registration in
`flag.Var`.  It fails as well for an unexported text field with a default
literal (`struct{ port string }`, literal `8080`), where `DefaultValue` and
`Read` both panic in `SetString`, and for a text field of a defined type
(`Level` of `type Level string`), where `DefaultValue` returns and `Read`
panics at the assertion `.(*string)`. -/
theorem Read_defaults_counterexample :
    supported GoType.string = true
    ∧ DefaultValue (fun _ _ _ => 0)
        ⟨[⟨"HTTPPort".toList, .string, some "80".toList, none⟩,
          ⟨"HttpPort".toList, .string, some "81".toList, none⟩], []⟩
      = .ret [("HTTPPort".toList, .str "80".toList), ("HttpPort".toList, .str "81".toList)]
    ∧ Read (fun _ _ _ => 0)
        ⟨[⟨"HTTPPort".toList, .string, some "80".toList, none⟩,
          ⟨"HttpPort".toList, .string, some "81".toList, none⟩], []⟩
        (NewFlagSet .ContinueOnError) (fun _ => none) []
      = .panic (.flagRedefined "http-port".toList)
    ∧ DefaultValue (fun _ _ _ => 0)
        ⟨[⟨"port".toList, .string, some "8080".toList, none⟩], []⟩
      = .panic (.unexportedField "port".toList)
    ∧ Read (fun _ _ _ => 0) ⟨[⟨"port".toList, .string, some "8080".toList, none⟩], []⟩
        (NewFlagSet .ContinueOnError) (fun _ => none) []
      = .panic (.unexportedField "port".toList)
    ∧ (GoType.named .String).Kind = .String
    ∧ DefaultValue (fun _ _ _ => 0)
        ⟨[⟨"Level".toList, .named .String, some "info".toList, none⟩], []⟩
      = .ret [("Level".toList, .str "info".toList)]
    ∧ Read (fun _ _ _ => 0) ⟨[⟨"Level".toList, .named .String, some "info".toList, none⟩], []⟩
        (NewFlagSet .ContinueOnError) (fun _ => none) []
      = .panic .typeAssertion :=
  ⟨by decide, by decide, by decide, by decide, by decide, by decide, by decide, by decide⟩

/-! ### Boolean fields -/

theorem zeroValue_bool (t : GoType) (hk : t.Kind = .Bool) : zeroValue t = .bool false := by
  cases t with
  | named k =>
    have hk1 : k = .Bool := hk
    rw [hk1]
    rfl
  | bool => rfl
  | _ => cases hk

theorem supported_bool (t : GoType) (hs : supported t = true) (hk : t.Kind = .Bool) :
    t = .bool := by
  cases t with
  | named k => cases hs
  | bool => rfl
  | _ => cases hk

theorem defaultValueBody_bool (fracNanos : Nat → Nat → Nat → Nat) (field : StructField)
    (d desc : Str) (secret : Bool) (value : Instance) (hk : field.Typ.Kind = .Bool)
    (he : IsExported field.Name = true) :
    defaultValueBody fracNanos field d desc secret value
      = .ret (if d = [] then value
          else storeField value field.Name (.bool (decide (d = "true".toList)))) := by
  unfold defaultValueBody setField
  by_cases hd : d = []
  · simp [hd]
  · simp [hd, hk, he]

/-- When the default pass returns at a boolean field, it has left the field
as the literal says. -/
theorem defaultValueBody_bool_ret (fracNanos : Nat → Nat → Nat → Nat) (field : StructField)
    (d desc : Str) (secret : Bool) (value r : Instance) (hk : field.Typ.Kind = .Bool)
    (h : defaultValueBody fracNanos field d desc secret value = .ret r) :
    r = if d = [] then value
      else storeField value field.Name (.bool (decide (d = "true".toList))) := by
  unfold defaultValueBody setField at h
  by_cases hd : d = []
  · simp only [hd, if_true] at h
    injection h with h
    simp [hd, h]
  · simp only [hd, if_false, hk] at h ⊢
    split at h
    · injection h with h
      exact h.symm
    · cases h

/-- The body of the default pass writes no field but its own. -/
theorem defaultValueBody_frame (fracNanos : Nat → Nat → Nat → Nat) (g : StructField)
    (d desc : Str) (secret : Bool) (s r : Instance) (n : Str) (hn : g.Name ≠ n)
    (h : defaultValueBody fracNanos g d desc secret s = .ret r) :
    FieldByName r n = FieldByName s n := by
  have hset : ∀ x, FieldByName (storeField s g.Name x) n = FieldByName s n := by
    intro x
    rw [FieldByName_storeField, if_neg hn]
  unfold defaultValueBody setField at h
  repeat' split at h
  all_goals (cases h <;> first | rfl | exact hset _)

theorem iterateFields_default_frame (fracNanos : Nat → Nat → Nat → Nat)
    (fs : List StructField) (s r : Instance) (n : Str)
    (hn : n ∉ fs.map (fun f => f.Name))
    (h : iterateFields (defaultValueBody fracNanos) fs s = .ret r) :
    FieldByName r n = FieldByName s n := by
  induction fs generalizing s with
  | nil =>
    injection h with h
    rw [h]
  | cons g rest ih =>
    rw [iterateFields_cons] at h
    rw [List.map_cons, List.mem_cons, not_or] at hn
    cases hb : defaultValueBody fracNanos g (fieldMeta g).1 (fieldMeta g).2.1
        (fieldMeta g).2.2 s with
    | panic p => rw [hb] at h; cases h
    | exit c => rw [hb] at h; cases h
    | ret s1 =>
      rw [hb] at h
      rw [ih s1 hn.2 h]
      exact defaultValueBody_frame fracNanos g _ _ _ s s1 n (fun e => hn.1 e.symm) hb

theorem iterateFields_default_bool (fracNanos : Nat → Nat → Nat → Nat)
    (fs : List StructField) (field : StructField) (s r : Instance)
    (hk : field.Typ.Kind = .Bool) (hnd : (fs.map (fun f => f.Name)).Nodup) (hf : field ∈ fs)
    (h : iterateFields (defaultValueBody fracNanos) fs s = .ret r) :
    FieldByName r field.Name
      = if (fieldMeta field).1 = [] then FieldByName s field.Name
        else (FieldByName s field.Name).map
          (fun _ => .bool (decide ((fieldMeta field).1 = "true".toList))) := by
  induction fs generalizing s with
  | nil => simp at hf
  | cons g rest ih =>
    rw [iterateFields_cons] at h
    rw [List.map_cons, List.nodup_cons] at hnd
    cases hb : defaultValueBody fracNanos g (fieldMeta g).1 (fieldMeta g).2.1
        (fieldMeta g).2.2 s with
    | panic p => rw [hb] at h; cases h
    | exit c => rw [hb] at h; cases h
    | ret s1 =>
      rw [hb] at h
      rcases List.mem_cons.mp hf with hg | hg
      · subst hg
        rw [iterateFields_default_frame fracNanos rest s1 r field.Name hnd.1 h]
        rw [defaultValueBody_bool_ret fracNanos field _ _ _ s s1 hk hb]
        by_cases hd : (fieldMeta field).1 = []
        · simp [hd]
        · simp [hd, FieldByName_storeField]
      · have hne : g.Name ≠ field.Name := by
          intro e
          exact hnd.1 (List.mem_map.mpr ⟨field, hg, e.symm⟩)
        rw [ih s1 hnd.2 hg h,
          defaultValueBody_frame fracNanos g _ _ _ s s1 field.Name hne hb]

/-- `parseOne` at an argument `--name=value` of a boolean flag whose value is
not a boolean token. -/
theorem parseOne_bool_error (fracNanos : Nat → Nat → Nat → Nat) (f : FlagSet) (name v : Str)
    (rest : List Str) (config : Instance) (fl : Flag)
    (hname : (∃ c cs, name = c :: cs ∧ c ≠ '-' ∧ c ≠ '=') ∧ '=' ∉ name)
    (hl : f.lookup name = some fl) (hb : fl.Value = .boolValue) (hv : ParseBool v = none) :
    f.parseOne fracNanos (flagToken (name, v) :: rest) config
      = (false, some (.invalidBoolean v name), rest, storeField config fl.cell (.bool false)) := by
  obtain ⟨⟨c, cs, rfl, hc1, hc2⟩, heq⟩ := hname
  have hcs : '=' ∉ cs := fun h => heq (List.mem_cons_of_mem _ h)
  have hcut := cutValue_token c cs v hcs
  have hset : fl.Set fracNanos v config = (storeField config fl.cell (.bool false), true) := by
    unfold Flag.Set FlagValue.parse
    rw [hb]
    simp only [hv]
  simp only [FlagSet.parseOne, flagToken, List.cons_append] at hcut ⊢
  simp only [true_and, List.cons_ne_nil, if_false, if_true, List.head?_cons,
    Option.some.injEq, hc1, hc2, or_self, hcut, hl, hset, hb]

/-- C10, with the condition the code needs: for every exported boolean field
and every default literal, the default pass never fails at the field and
leaves it true exactly when the literal is the text `true` (so `1`, `TRUE` and
`yes` give false); on the command line a value for the same field that is not
a boolean token makes `Parse` fail: a flag set with `ContinueOnError` returns
the error, one with `ExitOnError` ends the process with status 2, one with
`PanicOnError` panics. -/
theorem bool_default_lenient (fracNanos : Nat → Nat → Nat → Nat) (field : StructField)
    (hk : field.Typ.Kind = .Bool) (he : IsExported field.Name = true) :
    (∀ (d desc : Str) (secret : Bool) (value : Instance),
        defaultValueBody fracNanos field d desc secret value
          = .ret (if d = [] then value
              else storeField value field.Name (.bool (decide (d = "true".toList)))))
    ∧ (∀ (reader : ConfigReader) (inst : Instance),
        (reader.ConfigT.map (fun f => f.Name)).Nodup → field ∈ reader.ConfigT →
        DefaultValue fracNanos reader = .ret inst →
        FieldByName inst field.Name
          = some (.bool (decide ((fieldMeta field).1 = "true".toList))))
    ∧ DefaultValue fracNanos ⟨[field], []⟩
        = .ret [(field.Name, .bool (decide ((fieldMeta field).1 = "true".toList)))]
    ∧ (decide ("1".toList = "true".toList) = false
        ∧ decide ("TRUE".toList = "true".toList) = false
        ∧ decide ("yes".toList = "true".toList) = false)
    ∧ (∀ (reader : ConfigReader) (eh : ErrorHandling) (v : Str) (config : Instance),
        field ∈ reader.ConfigT →
        (∀ f ∈ reader.ConfigT, isIdentifier f.Name = true) →
        (∀ f ∈ reader.ConfigT, IsExported f.Name = true) →
        (∀ f ∈ reader.ConfigT, supported f.Typ = true) →
        (reader.ConfigT.map (fun f => toArgName f.Name)).Nodup →
        ParseBool v = none →
        ∃ f1, configureFlagSet reader (NewFlagSet eh) = .ret f1
          ∧ f1.Parse fracNanos [flagToken (toArgName field.Name, v)] config
            = match eh with
              | .ContinueOnError =>
                .ret (some (.invalidBoolean v (toArgName field.Name)),
                  storeField config field.Name (.bool false))
              | .ExitOnError => .exit 2
              | .PanicOnError => .panic .flagError) := by
  refine ⟨fun d desc secret value =>
      defaultValueBody_bool fracNanos field d desc secret value hk he,
    ?_, ?_, ⟨by decide, by decide, by decide⟩, ?_⟩
  · intro reader inst hnd hf hdv
    have h := iterateFields_default_bool fracNanos reader.ConfigT field (newConfig reader) inst
      hk hnd hf hdv
    have hz : FieldByName (newConfig reader) field.Name = some (.bool false) := by
      have := FieldByName_zeroes reader.ConfigT field hnd hf
      rw [zeroValue_bool field.Typ hk] at this
      exact this
    rw [h, hz]
    by_cases hd : (fieldMeta field).1 = []
    · simp [hd]
    · simp [hd]
  · unfold DefaultValue defaultValue
    rw [iterateFields_cons, defaultValueBody_bool fracNanos field _ _ _ _ hk he]
    simp only [Outcome.bind, iterateFields, newConfig, List.map_cons, List.map_nil,
      zeroValue_bool field.Typ hk, storeField, if_true]
    by_cases hd : (fieldMeta field).1 = []
    · simp [hd]
    · simp [hd]
  · intro reader eh v config hf hid hex hs hnd hv
    have ht : field.Typ = .bool := supported_bool field.Typ (hs field hf) hk
    have hconf := iterateFields_configure reader.ConfigT (NewFlagSet eh) hs hid hex
      (by simpa [NewFlagSet] using hnd)
    refine ⟨_, hconf, ?_⟩
    have hone := parseOne_bool_error fracNanos
      (FlagSet.mk eh (reader.ConfigT.map flagFor)) (toArgName field.Name) v [] config
      (flagFor field) (toArgName_valid field.Name (hid field hf))
      (lookup_flagFor eh reader.ConfigT field hnd hf)
      (by simp [flagFor, valueFor, ht]) hv
    simp only [NewFlagSet, List.nil_append, FlagSet.Parse, FlagSet.parseLoop, List.length_cons,
      List.length_nil, hone]
    cases eh <;> rfl

/-- C10, at the boolean field `TextLogging` with the default literal `yes`:
the default instance holds false, and `--text-logging=yes` is accepted by
neither parser: the command-line parse fails on it as on `maybe`. -/
theorem bool_default_lenient_witness :
    DefaultValue (fun _ _ _ => 0) ⟨[⟨"TextLogging".toList, .bool, some "yes".toList, none⟩], []⟩
      = .ret [("TextLogging".toList, .bool false)]
    ∧ ∃ f1, configureFlagSet ⟨[⟨"TextLogging".toList, .bool, some "yes".toList, none⟩], []⟩
          (NewFlagSet .ContinueOnError) = .ret f1
        ∧ f1.Parse (fun _ _ _ => 0) ["--text-logging=maybe".toList]
            [("TextLogging".toList, .bool false)]
          = .ret (some (.invalidBoolean "maybe".toList "text-logging".toList),
              [("TextLogging".toList, .bool false)]) :=
  have h := bool_default_lenient (fun _ _ _ => 0)
    ⟨"TextLogging".toList, .bool, some "yes".toList, none⟩ rfl (by decide)
  ⟨h.2.2.1,
    h.2.2.2.2 ⟨[⟨"TextLogging".toList, .bool, some "yes".toList, none⟩], []⟩ .ContinueOnError
      "maybe".toList [("TextLogging".toList, .bool false)]
      (by decide) (by decide) (by decide) (by decide) (by decide) (by decide)⟩

/-- C10 as stated fails for an unexported boolean field: at
`struct{ verbose bool }` with the default literal `true`, `SetBool` panics and
building the default instance fails.  The exported field of the same literal
is set to true. -/
theorem bool_default_lenient_counterexample :
    (⟨"verbose".toList, .bool, some "true".toList, none⟩ : StructField).Typ.Kind = .Bool
    ∧ DefaultValue (fun _ _ _ => 0)
        ⟨[⟨"verbose".toList, .bool, some "true".toList, none⟩], []⟩
      = .panic (.unexportedField "verbose".toList)
    ∧ DefaultValue (fun _ _ _ => 0)
        ⟨[⟨"Verbose".toList, .bool, some "true".toList, none⟩], []⟩
      = .ret [("Verbose".toList, .bool true)] := by
  decide

/-! ### The bounds of the loops -/

theorem leadingInt_length (s : Str) (x v : Nat) (r : Str) (h : leadingInt s x = some (v, r)) :
    r.length ≤ s.length := by
  induction s generalizing x with
  | nil =>
    simp only [leadingInt, Option.some.injEq, Prod.mk.injEq] at h
    rw [← h.2]
  | cons c cs ih =>
    simp only [leadingInt] at h
    split at h
    · simp only [Option.some.injEq, Prod.mk.injEq] at h
      rw [← h.2]
    · split at h
      · cases h
      · split at h
        · cases h
        · exact Nat.le_succ_of_le (ih _ h)

theorem leadingFraction_length (s : Str) (x k : Nat) (o : Bool) :
    (leadingFraction s x k o).2.2.length ≤ s.length := by
  induction s generalizing x k o with
  | nil => simp [leadingFraction]
  | cons c cs ih =>
    simp only [leadingFraction]
    split
    · exact Nat.le_refl _
    · split
      · exact Nat.le_succ_of_le (ih _ _ _)
      · split
        · exact Nat.le_succ_of_le (ih _ _ _)
        · split
          · exact Nat.le_succ_of_le (ih _ _ _)
          · exact Nat.le_succ_of_le (ih _ _ _)

theorem length_dropWhile_lt (p : Char → Bool) (l : Str) (h : l.takeWhile p ≠ []) :
    (l.dropWhile p).length < l.length := by
  cases l with
  | nil => simp at h
  | cons a rest =>
    by_cases ha : p a = true
    · simp only [List.dropWhile, ha, List.length_cons]
      exact Nat.lt_succ_of_le (length_dropWhile_le p rest)
    · simp [List.takeWhile, ha] at h

theorem fractionPart_length (s1 : Str) : (fractionPart s1).2.2.1.length ≤ s1.length := by
  unfold fractionPart
  split
  · exact Nat.le_succ_of_le (leadingFraction_length _ 0 0 false)
  · exact Nat.le_refl _

/-- Every round of the loop of `ParseDuration` shortens the text. -/
theorem parseDurationGroup_length (fracNanos : Nat → Nat → Nat → Nat) (s : Str) (d : Nat)
    (s3 : Str) (d1 : Nat) (h : parseDurationGroup fracNanos s d = some (s3, d1)) :
    s3.length < s.length := by
  cases s with
  | nil => simp [parseDurationGroup] at h
  | cons c cs =>
    simp only [parseDurationGroup] at h
    split at h
    · cases h
    · split at h
      · cases h
      · rename_i v s1 hli
        have h1 := leadingInt_length _ _ _ _ hli
        have h2 := fractionPart_length s1
        generalize fractionPart s1 = fr at h h2
        split at h
        · cases h
        · split at h
          · cases h
          · rename_i hu
            have h3 := length_dropWhile_lt (fun x => !endsUnit x) fr.2.2.1 hu
            split at h
            · cases h
            · split at h
              · cases h
              · split at h
                · cases h
                · split at h
                  · cases h
                  · simp only [Option.some.injEq, Prod.mk.injEq] at h
                    rw [← h.1]
                    exact Nat.lt_of_lt_of_le h3 (Nat.le_trans h2 h1)

/-- The bound of `parseDurationLoop` is immaterial from the length of the
text on: `ParseDuration` never runs out of rounds. -/
theorem parseDurationLoop_fuel (fracNanos : Nat → Nat → Nat → Nat) (n : Nat) (s : Str)
    (d : Nat) (h : s.length ≤ n) :
    parseDurationLoop fracNanos n s d = parseDurationLoop fracNanos s.length s d := by
  induction n using Nat.strong_induction_on generalizing s d with
  | _ n ih =>
    cases s with
    | nil => cases n <;> rfl
    | cons c cs =>
      obtain ⟨m, rfl⟩ : ∃ m, n = m + 1 := ⟨n - 1, by simp at h; omega⟩
      simp only [List.length_cons, parseDurationLoop]
      cases hg : parseDurationGroup fracNanos (c :: cs) d with
      | none => rfl
      | some r =>
        obtain ⟨s3, d1⟩ := r
        have hlt := parseDurationGroup_length fracNanos _ _ _ _ hg
        simp only [List.length_cons] at hlt h
        simp only
        rw [ih m (Nat.lt_succ_self _) s3 d1 (by omega),
          ih cs.length (by omega) s3 d1 (by omega)]

/-- A flag that `parseOne` sees takes at least one argument off the list. -/
theorem parseOne_seen_length (fracNanos : Nat → Nat → Nat → Nat) (f : FlagSet)
    (args : List Str) (c : Instance) (e : Option FlagError) (args1 : List Str) (c1 : Instance)
    (h : f.parseOne fracNanos args c = (true, e, args1, c1)) : args1.length < args.length := by
  simp only [FlagSet.parseOne] at h
  repeat' split at h
  all_goals first
    | (exfalso; simp only [Prod.mk.injEq, Bool.false_eq_true, false_and] at h; done)
    | (simp only [Prod.mk.injEq] at h
       obtain ⟨_, _, h3, _⟩ := h
       rw [← h3]
       simp only [List.length_cons]
       omega)

/-- The bound of `parseLoop` is immaterial above the length of the argument
list: `Parse` never runs out of rounds. -/
theorem parseLoop_fuel (fracNanos : Nat → Nat → Nat → Nat) (f : FlagSet) (n : Nat)
    (args : List Str) (c : Instance) (h : args.length < n) :
    f.parseLoop fracNanos n args c = f.parseLoop fracNanos (args.length + 1) args c := by
  induction n using Nat.strong_induction_on generalizing args c with
  | _ n ih =>
    obtain ⟨m, rfl⟩ : ∃ m, n = m + 1 := ⟨n - 1, by omega⟩
    simp only [FlagSet.parseLoop]
    rcases hp : f.parseOne fracNanos args c with ⟨seen, e, args1, c1⟩
    cases seen with
    | false => rfl
    | true =>
      have hlt := parseOne_seen_length fracNanos f args c e args1 c1 hp
      simp only
      rw [ih m (Nat.lt_succ_self _) args1 c1 (by omega),
        ih args.length (by omega) args1 c1 (by omega)]

/-! ### `iterateFields` -/

theorem splitAux_eq (s cur : Str) :
    splitAux s cur
      = (cur.reverse ++ s.takeWhile fun c => c != ',')
        :: (match s.dropWhile fun c => c != ',' with
            | [] => []
            | _ :: rest => splitAux rest []) := by
  induction s generalizing cur with
  | nil => simp [splitAux]
  | cons c cs ih =>
    by_cases hc : c = ','
    · subst hc
      simp [splitAux, List.takeWhile, List.dropWhile]
    · have hc2 : (c != ',') = true := by simpa using hc
      simp only [splitAux, hc, if_false, List.takeWhile, List.dropWhile, hc2]
      rw [ih]
      simp

theorem fieldMeta_eq (field : StructField) :
    fieldMeta field = (tagDefault field, tagDescription field, tagSecret field) := by
  unfold fieldMeta tagDefault tagDescription tagSecret secondToken
  cases hc : field.configTag with
  | none => cases hd : field.descTag <;> rfl
  | some tag =>
    have hsplit : Split tag = splitAux tag [] := rfl
    simp only [hsplit]
    rw [splitAux_eq tag []]
    cases hdrop : tag.dropWhile (fun c => c != ',') with
    | nil => cases hd : field.descTag <;> simp
    | cons k rest =>
      have h2 := splitAux_eq rest []
      simp only [h2]
      cases hd : field.descTag <;> simp

theorem foldl_bind_eq {σ : Type} (step : StructField → σ → Outcome σ)
    (fs : List StructField) (acc : Outcome σ) :
    fs.foldl (fun a f => a.bind (step f)) acc
      = acc.bind fun s => fs.foldl (fun a f => a.bind (step f)) (.ret s) := by
  induction fs generalizing acc with
  | nil => cases acc <;> rfl
  | cons g rest ih =>
    rw [List.foldl_cons, ih]
    cases acc with
    | ret s =>
      show (step g s).bind _ = List.foldl _ ((Outcome.ret s).bind (step g)) rest
      rw [ih]
      rfl
    | panic p => rfl
    | exit c => rfl

/-- C11: for every settings structure, `iterateFields` calls its body exactly
once per field, in declaration order, and hands it as default literal the
text of the config tag before its first comma (the whole tag without a comma,
the empty text without a tag), as secret flag whether the tag has a second
comma-delimited token equal to `secret`, and as description the desc tag or
the empty text.  A recording body logs exactly these calls; for any body the
loop is the sequence of these calls, ended by the first panic. -/
theorem iterateFields_calls (fs : List StructField) :
    iterateFields recordCall fs []
      = .ret (fs.map fun f => (f, tagDefault f, tagDescription f, tagSecret f))
    ∧ ∀ (σ : Type) (body : StructField → Str → Str → Bool → σ → Outcome σ) (s : σ),
        iterateFields body fs s
          = fs.foldl (fun acc f =>
              acc.bind (body f (tagDefault f) (tagDescription f) (tagSecret f))) (.ret s) := by
  constructor
  · have h : ∀ log : List (StructField × Str × Str × Bool),
        iterateFields recordCall fs log
          = .ret (log ++ fs.map fun f => (f, tagDefault f, tagDescription f, tagSecret f)) := by
      induction fs with
      | nil => intro log; simp [iterateFields]
      | cons g rest ih =>
        intro log
        rw [iterateFields_cons, fieldMeta_eq]
        simp only [recordCall, Outcome.bind]
        rw [ih]
        simp
    simpa using h []
  · intro σ body s
    induction fs generalizing s with
    | nil => rfl
    | cons g rest ih =>
      rw [iterateFields_cons, fieldMeta_eq, List.foldl_cons, foldl_bind_eq]
      simp only [Outcome.bind]
      cases body g (tagDefault g) (tagDescription g) (tagSecret g) s with
      | ret s1 => simp only [Outcome.bind]; exact ih s1
      | panic p => rfl
      | exit c => rfl

/-! ### `Config.WithoutSecrets` -/

/-- Two instances with the same distinct field names and the same value in
every field are equal. -/
theorem instance_ext (a b : Instance) (hn : a.map Prod.fst = b.map Prod.fst)
    (hnd : (a.map Prod.fst).Nodup)
    (h : ∀ n ∈ a.map Prod.fst, FieldByName a n = FieldByName b n) : a = b := by
  induction a generalizing b with
  | nil =>
    cases b with
    | nil => rfl
    | cons e rest => simp at hn
  | cons e ra ih =>
    cases b with
    | nil => simp at hn
    | cons e2 rb =>
      obtain ⟨k, x⟩ := e
      obtain ⟨k2, y⟩ := e2
      simp only [List.map_cons, List.cons.injEq] at hn
      obtain ⟨hk, hrest⟩ := hn
      subst hk
      rw [List.map_cons, List.nodup_cons] at hnd
      have hx : x = y := by
        have := h k (List.mem_cons_self _ _)
        simpa [FieldByName] using this
      subst hx
      have hra : ra = rb := by
        apply ih rb hrest hnd.2
        intro n hmem
        have hne : ¬ k = n := by
          intro e
          exact hnd.1 (by rw [e]; exact hmem)
        have := h n (List.mem_cons_of_mem _ hmem)
        simpa [FieldByName, hne] using this
      rw [hra]

/-- `WithoutSecrets` of a structure without secret fields returns its
argument as it is. -/
theorem WithoutSecrets_no_secret (reader : ConfigReader) (c : Instance)
    (hnd : (reader.ConfigT.map (fun f => f.Name)).Nodup)
    (he : ∀ f ∈ reader.ConfigT, IsExported f.Name = true)
    (hsec : ∀ f ∈ reader.ConfigT, (fieldMeta f).2.2 = false)
    (hc : c.map Prod.fst = reader.ConfigT.map (fun f => f.Name)) :
    WithoutSecrets reader c = .ret c := by
  have hmem : ∀ f ∈ reader.ConfigT, f.Name ∈ c.map Prod.fst := by
    intro f hf
    rw [hc]
    exact List.mem_map.mpr ⟨f, hf, rfl⟩
  unfold WithoutSecrets
  rw [iterateFields_withoutSecrets c reader.ConfigT (newConfig reader) hmem
    (fun f hf _ => he f hf)]
  congr 1
  have hnames : ((reader.ConfigT.map (secretWrite c)).foldl writeField (newConfig reader)).map
      Prod.fst = c.map Prod.fst := by
    rw [map_fst_foldl_writeField, map_fst_newConfig, hc]
  apply instance_ext _ _ hnames
  · rw [hnames, hc]; exact hnd
  · intro n hn
    rw [hnames, hc] at hn
    obtain ⟨field, hf, rfl⟩ := List.mem_map.mp hn
    have hws : ((reader.ConfigT.map (secretWrite c)).map Prod.fst).Nodup := by
      simpa [List.map_map, Function.comp, secretWrite] using hnd
    have hsome := (FieldByName_isSome c field.Name).mpr (hmem field hf)
    obtain ⟨x, hx⟩ := Option.isSome_iff_exists.mp hsome
    have hw : (field.Name, some x) ∈ reader.ConfigT.map (secretWrite c) :=
      List.mem_map.mpr ⟨field, hf, by simp [secretWrite, hsec field hf, hx]⟩
    have hzero : FieldByName (newConfig reader) field.Name = some (zeroValue field.Typ) :=
      FieldByName_zeroes reader.ConfigT field hnd hf
    rw [FieldByName_foldl_set _ _ _ x hws hw, hzero, hx]
    rfl

/-- C12: no field of the repository's `Config` is marked secret, so for every
`Config` value `c` the result of `c.WithoutSecrets()` is `c` itself, field by
field: in particular its APIKey and APISecret are those of `c`, not
cleared. -/
theorem Config_WithoutSecrets_keeps (c : Instance)
    (hc : c.map Prod.fst = Config.map (fun f => f.Name)) :
    (∀ f ∈ Config, (fieldMeta f).2.2 = false)
    ∧ ∃ r, WithoutSecrets configReader c = .ret r
        ∧ r = c
        ∧ FieldByName r "APIKey".toList = FieldByName c "APIKey".toList
        ∧ FieldByName r "APISecret".toList = FieldByName c "APISecret".toList := by
  have hsec : ∀ f ∈ Config, (fieldMeta f).2.2 = false := by decide
  refine ⟨hsec, c, ?_, rfl, rfl, rfl⟩
  exact WithoutSecrets_no_secret configReader c (by decide) (by decide) hsec hc

/-- C12, at a `Config` value with the API key `k3y` and the API secret
`s3cret`: both are in the result of `WithoutSecrets`. -/
theorem Config_WithoutSecrets_keeps_witness :
    ∃ r, WithoutSecrets configReader
          [("Host".toList, .str "localhost".toList), ("Port".toList, .str "8080".toList),
            ("LogLevel".toList, .str "error".toList), ("TextLogging".toList, .bool true),
            ("GracePeriod".toList, .int 5000000000), ("APIKey".toList, .str "k3y".toList),
            ("APISecret".toList, .str "s3cret".toList)] = .ret r
      ∧ FieldByName r "APIKey".toList = some (.str "k3y".toList)
      ∧ FieldByName r "APISecret".toList = some (.str "s3cret".toList) := by
  obtain ⟨_, r, h1, h2, _, _⟩ := Config_WithoutSecrets_keeps
    [("Host".toList, .str "localhost".toList), ("Port".toList, .str "8080".toList),
      ("LogLevel".toList, .str "error".toList), ("TextLogging".toList, .bool true),
      ("GracePeriod".toList, .int 5000000000), ("APIKey".toList, .str "k3y".toList),
      ("APISecret".toList, .str "s3cret".toList)] (by decide)
  refine ⟨r, h1, ?_, ?_⟩ <;> rw [h2] <;> decide

/-! ### Arguments behind the flags -/

/-- `parseOne` at an argument that does not start with `-`, or at the
terminator `--`: no flag is seen and no error is returned. -/
theorem parseOne_stop (fracNanos : Nat → Nat → Nat → Nat) (f : FlagSet) (p : Str)
    (post : List Str) (c : Instance) (hp : p.head? ≠ some '-' ∨ p = "--".toList) :
    ∃ left, f.parseOne fracNanos (p :: post) c = (false, none, left, c) := by
  rcases hp with hp | hp
  · cases p with
    | nil => exact ⟨_, rfl⟩
    | cons a rest =>
      have ha : a ≠ '-' := by
        intro e
        exact hp (by rw [e]; rfl)
      refine ⟨(a :: rest) :: post, ?_⟩
      simp only [FlagSet.parseOne]
      split
      · rename_i c1 t heq
        exact absurd (List.cons.inj heq).1 ha
      · rfl
  · subst hp
    exact ⟨post, rfl⟩

theorem cutValue_bare (c : Char) (cs : Str) (h : '=' ∉ cs) :
    cutValue (c :: cs) = (c :: cs, none) := by
  have hd : cs.dropWhile (fun x => x != '=') = [] := by
    rw [List.dropWhile_eq_nil_iff]
    intro x hx
    simp only [bne_iff_ne, ne_eq]
    intro e
    exact h (by rw [← e]; exact hx)
  simp only [cutValue, hd]

/-- `parseOne` at a flag written as one argument, with one dash or two, whose
flag is defined and whose value parses (a bare flag being boolean): the flag is
seen and its cell is written. -/
theorem parseOne_flagArg (fracNanos : Nat → Nat → Nat → Nat) (f : FlagSet)
    (a : Bool × Str × Option Str) (rest : List Str) (config : Instance) (fl : Flag)
    (hname : (∃ c cs, a.2.1 = c :: cs ∧ c ≠ '-' ∧ c ≠ '=') ∧ '=' ∉ a.2.1)
    (hl : f.lookup a.2.1 = some fl)
    (hv : match a.2.2 with
      | some v => (fl.Value.parse fracNanos v).2 = false
      | none => fl.Value = .boolValue) :
    f.parseOne fracNanos (flagArg a :: rest) config
      = (true, none, rest,
          storeField config fl.cell (fl.Value.parse fracNanos (a.2.2.getD "true".toList)).1) := by
  obtain ⟨dbl, name, value⟩ := a
  obtain ⟨⟨c, cs, hn, hc1, hc2⟩, heq⟩ := hname
  simp only at hn heq hl hv
  subst hn
  have hcs : '=' ∉ cs := fun h => heq (List.mem_cons_of_mem _ h)
  cases value with
  | some v =>
    have hcut := cutValue_token c cs v hcs
    have hset : fl.Set fracNanos v config
        = (storeField config fl.cell (fl.Value.parse fracNanos v).1, false) := by
      unfold Flag.Set
      rw [← hv]
    cases dbl
    · simp only [FlagSet.parseOne, flagArg, List.cons_append, List.nil_append, Bool.false_eq_true,
        if_false] at hcut ⊢
      simp only [hc1, false_and, List.cons_ne_nil, if_false, List.head?_cons,
        Option.some.injEq, hc2, or_self, hcut, hl, hset, Option.getD_some]
      split <;> rfl
    · simp only [FlagSet.parseOne, flagArg, List.cons_append, List.nil_append, if_true]
        at hcut ⊢
      simp only [true_and, List.cons_ne_nil, if_false, if_true, List.head?_cons,
        Option.some.injEq, hc1, hc2, or_self, hcut, hl, hset, Option.getD_some]
      split <;> rfl
  | none =>
    have hcut := cutValue_bare c cs hcs
    have hset : fl.Set fracNanos "true".toList config
        = (storeField config fl.cell (fl.Value.parse fracNanos "true".toList).1, false) := by
      unfold Flag.Set
      simp only at hv
      rw [hv]
      rfl
    simp only at hv
    cases dbl
    · simp only [FlagSet.parseOne, flagArg, List.cons_append, List.nil_append, Bool.false_eq_true,
        if_false, List.append_nil]
      simp only [hc1, false_and, List.cons_ne_nil, if_false, List.head?_cons,
        Option.some.injEq, hc2, or_self, hcut, hl, hset, hv, if_true, Option.getD_none]
    · simp only [FlagSet.parseOne, flagArg, List.cons_append, List.nil_append, if_true,
        List.append_nil]
      simp only [true_and, List.cons_ne_nil, if_false, if_true, List.head?_cons,
        Option.some.injEq, hc1, hc2, or_self, hcut, hl, hset, hv, Option.getD_none]

/-- The loop of `Parse` over well-formed recognised flag tokens, whatever
follows them: the rounds for these arguments see a flag each, and the loop
goes on behind them. -/
theorem parseLoop_append (fracNanos : Nat → Nat → Nat → Nat) (eh : ErrorHandling)
    (fs : List StructField) (args : List (Bool × Str × Option Str)) (c : Instance)
    (hid : ∀ f ∈ fs, isIdentifier f.Name = true)
    (hnd : (fs.map (fun f => toArgName f.Name)).Nodup)
    (hargs : ∀ a ∈ args, wellFormedArg fracNanos fs a) :
    ∃ c1, ∀ (n : Nat) (tail : List Str),
      (FlagSet.mk eh (fs.map flagFor)).parseLoop fracNanos (args.length + n)
          (args.map flagArg ++ tail) c
        = (FlagSet.mk eh (fs.map flagFor)).parseLoop fracNanos n tail c1 := by
  induction args generalizing c with
  | nil => exact ⟨c, fun n tail => by simp⟩
  | cons a rest ih =>
    obtain ⟨f, hf, haf, hpf⟩ := hargs a (List.mem_cons_self _ _)
    obtain ⟨c1, hc1⟩ := ih
      (storeField c (flagFor f).cell
        ((flagFor f).Value.parse fracNanos (a.2.2.getD "true".toList)).1)
      (fun b hb => hargs b (List.mem_cons_of_mem _ hb))
    refine ⟨c1, fun n tail => ?_⟩
    have hv : match a.2.2 with
        | some v => ((flagFor f).Value.parse fracNanos v).2 = false
        | none => (flagFor f).Value = .boolValue := by
      cases hval : a.2.2 with
      | some v => rw [hval] at hpf; exact hpf
      | none =>
        rw [hval] at hpf
        simp only at hpf ⊢
        simp [flagFor, valueFor, hpf]
    have hone := parseOne_flagArg fracNanos (FlagSet.mk eh (fs.map flagFor)) a
      (rest.map flagArg ++ tail) c (flagFor f)
      (by rw [haf]; exact toArgName_valid f.Name (hid f hf))
      (by rw [haf]; exact lookup_flagFor eh fs f hnd hf) hv
    have hfuel : (a :: rest).length + n = (rest.length + n) + 1 := by
      simp only [List.length_cons]; omega
    rw [hfuel, List.map_cons, List.cons_append, FlagSet.parseLoop, hone]
    exact hc1 n tail

/-- `Parse` stops without an error at an argument that does not start with
`-` and at the terminator `--`: what follows is not read. -/
theorem Parse_stops (fracNanos : Nat → Nat → Nat → Nat) (eh : ErrorHandling)
    (fs : List StructField) (pre : List (Bool × Str × Option Str)) (p : Str) (post : List Str)
    (c : Instance)
    (hid : ∀ f ∈ fs, isIdentifier f.Name = true)
    (hnd : (fs.map (fun f => toArgName f.Name)).Nodup)
    (hpre : ∀ a ∈ pre, wellFormedArg fracNanos fs a)
    (hp : p.head? ≠ some '-' ∨ p = "--".toList) :
    ∃ c1, (FlagSet.mk eh (fs.map flagFor)).Parse fracNanos (pre.map flagArg) c
        = .ret (none, c1)
      ∧ (FlagSet.mk eh (fs.map flagFor)).Parse fracNanos (pre.map flagArg ++ p :: post) c
        = .ret (none, c1) := by
  obtain ⟨c1, hc1⟩ := parseLoop_append fracNanos eh fs pre c hid hnd hpre
  obtain ⟨left, hstop⟩ := parseOne_stop fracNanos (FlagSet.mk eh (fs.map flagFor)) p post c1 hp
  have h1 : (pre.map flagArg ++ p :: post).length + 1 = pre.length + (post.length + 1 + 1) := by
    simp only [List.length_append, List.length_map, List.length_cons]; omega
  have h2 : (pre.map flagArg).length + 1 = pre.length + 1 := by
    simp only [List.length_map]
  have h3 := hc1 (post.length + 1 + 1) (p :: post)
  have h4 := hc1 1 []
  rw [List.append_nil] at h4
  refine ⟨c1, ?_, ?_⟩
  · unfold FlagSet.Parse
    rw [h2, h4]
    rfl
  · unfold FlagSet.Parse
    rw [h1, h3]
    simp only [FlagSet.parseLoop, hstop]

/-- C13: for every argument list `pre ++ [p] ++ post`, where `pre` is a list
of well-formed recognised flag tokens and `p` either does not start with `-`
or is the terminator `--`, `Read` returns without an error the instance it
returns for `pre` alone: no flag of `post` is applied, however well-formed.
(The settings structure is as `Read` needs it: exported fields of supported
types, that is the predeclared types and `time.Duration`, with well-formed
defaults and distinct flag names, as those of the repository's `Config`.) -/
theorem Read_stops_at_positional (fracNanos : Nat → Nat → Nat → Nat) (reader : ConfigReader)
    (eh : ErrorHandling) (env : Str → Option Str) (pre : List (Bool × Str × Option Str))
    (p : Str) (post : List Str)
    (hid : ∀ f ∈ reader.ConfigT, isIdentifier f.Name = true)
    (he : ∀ f ∈ reader.ConfigT, IsExported f.Name = true)
    (hs : ∀ f ∈ reader.ConfigT, supported f.Typ = true)
    (hnd : (reader.ConfigT.map (fun f => toArgName f.Name)).Nodup)
    (hm : ∀ f ∈ reader.ConfigT, malformedDefault fracNanos f.Typ (fieldMeta f).1 = false)
    (hpre : ∀ a ∈ pre, wellFormedArg fracNanos reader.ConfigT a)
    (hp : p.head? ≠ some '-' ∨ p = "--".toList) :
    ∃ inst, Read fracNanos reader (NewFlagSet eh) env (pre.map flagArg) = .ret (inst, none)
      ∧ Read fracNanos reader (NewFlagSet eh) env (pre.map flagArg ++ p :: post)
          = .ret (inst, none) := by
  have hdef := iterateFields_defaultValue fracNanos reader.ConfigT (newConfig reader) hs he hm
  have hconf := iterateFields_configure reader.ConfigT (NewFlagSet eh) hs hid he
    (by simpa [NewFlagSet] using hnd)
  obtain ⟨c1, hpa, hpb⟩ := Parse_stops fracNanos eh reader.ConfigT pre p post
    ((FlagSet.mk eh (reader.ConfigT.map flagFor)).VisitAll (applyEnv fracNanos reader env)
      ((reader.ConfigT.map (defaultWrite fracNanos)).foldl writeField (newConfig reader)))
    hid hnd hpre hp
  refine ⟨c1, ?_, ?_⟩
  · unfold Read readConfig defaultValue configureFlagSet
    rw [hdef, hconf]
    simp only [Outcome.bind, NewFlagSet, List.nil_append, hpa, Interface]
  · unfold Read readConfig defaultValue configureFlagSet
    rw [hdef, hconf]
    simp only [Outcome.bind, NewFlagSet, List.nil_append, hpb, Interface]

/-- C13, at the repository's `Config`: the arguments `list-push-coins`,
`--port=9999` leave the port at its default `8080`; and behind
`-text-logging=false`, `--host=example.org` and the terminator `--`, the
argument `--port=9999` is not applied either. -/
theorem Read_stops_at_positional_witness :
    (∃ inst, Read (fun _ _ _ => 0) configReader (NewFlagSet .ExitOnError) (fun _ => none)
        ["list-push-coins".toList, "--port=9999".toList] = .ret (inst, none)
      ∧ FieldByName inst "Port".toList = some (.str "8080".toList))
    ∧ (∃ inst, Read (fun _ _ _ => 0) configReader (NewFlagSet .ExitOnError) (fun _ => none)
        ["-text-logging=false".toList, "--host=example.org".toList, "--".toList,
          "--port=9999".toList] = .ret (inst, none)
      ∧ FieldByName inst "Port".toList = some (.str "8080".toList)
      ∧ FieldByName inst "Host".toList = some (.str "example.org".toList)
      ∧ FieldByName inst "TextLogging".toList = some (.bool false)) := by
  obtain ⟨i1, h1, h2⟩ := Read_stops_at_positional (fun _ _ _ => 0) configReader .ExitOnError
    (fun _ => none) [] "list-push-coins".toList ["--port=9999".toList]
    (by decide) (by decide) (by decide) (by decide) (by decide)
    (fun a ha => absurd ha (List.not_mem_nil a)) (Or.inl (by decide))
  obtain ⟨i2, h3, h4⟩ := Read_stops_at_positional (fun _ _ _ => 0) configReader .ExitOnError
    (fun _ => none)
    [(false, "text-logging".toList, some "false".toList),
      (true, "host".toList, some "example.org".toList)]
    "--".toList ["--port=9999".toList]
    (by decide) (by decide) (by decide) (by decide) (by decide)
    (by
      intro a ha
      simp only [List.mem_cons, List.mem_singleton, List.not_mem_nil, or_false] at ha
      rcases ha with rfl | rfl
      · exact ⟨⟨"TextLogging".toList, .bool, some "true".toList,
          some "Log in text format instead of json".toList⟩, by decide, by decide, by decide⟩
      · exact ⟨⟨"Host".toList, .string, some "localhost".toList,
          some "The host to listen on".toList⟩, by decide, by decide, by decide⟩)
    (Or.inr rfl)
  have e1 : Read (fun _ _ _ => 0) configReader (NewFlagSet .ExitOnError) (fun _ => none)
      (List.map flagArg [])
      = .ret ([("Host".toList, .str "localhost".toList), ("Port".toList, .str "8080".toList),
          ("LogLevel".toList, .str "error".toList), ("TextLogging".toList, .bool true),
          ("GracePeriod".toList, .int 5000000000), ("APIKey".toList, .str []),
          ("APISecret".toList, .str [])], none) := by decide
  have e2 : Read (fun _ _ _ => 0) configReader (NewFlagSet .ExitOnError) (fun _ => none)
      (List.map flagArg [(false, "text-logging".toList, some "false".toList),
        (true, "host".toList, some "example.org".toList)])
      = .ret ([("Host".toList, .str "example.org".toList), ("Port".toList, .str "8080".toList),
          ("LogLevel".toList, .str "error".toList), ("TextLogging".toList, .bool false),
          ("GracePeriod".toList, .int 5000000000), ("APIKey".toList, .str []),
          ("APISecret".toList, .str [])], none) := by decide
  refine ⟨⟨i1, h2, ?_⟩, ⟨i2, h4, ?_⟩⟩
  · rw [(Prod.mk.inj (Outcome.ret.inj (h1.symm.trans e1))).1]
    decide
  · rw [(Prod.mk.inj (Outcome.ret.inj (h3.symm.trans e2))).1]
    decide
end TradingShell
